import Mathlib

/-!
Verification of the qw-doing entry-merge engine.

This file is a shallow embedding of the shared core of the qw-doing
repository (src/shared/utils.ts, src/shared/core.ts, src/shared/timeParser.ts)
into Lean 4, together with theorems settling the specification claims.

Modelling conventions:
  * JavaScript strings are Lean `String`s; index arithmetic is done on
    `String.data : List Char` (all inputs of interest are within the BMP,
    where JS UTF-16 indices and char-list indices agree).
  * The ambient wall clock (`new Date()`) is passed explicitly as a `JsDate`.
  * The chrono-node natural-language interpreter is an external library; it
    is modelled as an oracle `ChronoOracle : String → Option JsDate` giving
    the `result.start.date()` of the first parse result (`none` covers both
    an empty result list and a thrown exception, which the source treats
    identically via its silent fallback).
  * The `FileOperations` gateway is modelled as an association list from
    paths to file contents; `write` prepends, `lookupFS` takes the first
    match, `ensureDir` is a no-op on this abstraction.
  * `LoggerError` values carry an error type and an interpolated message in
    the source; only the type is claim-relevant, so the embedding returns
    the `LoggerErrorType` alone.
-/

/-! ### JavaScript character classes

`jsWs` is the character set matched by the regex class `\s` (and removed by
`String.prototype.trim`).  `jsDot` is the set matched by `.` (everything but
the four line terminators).  `isDigitChar` is `\d` (ASCII digits). -/

def jsWs (c : Char) : Bool :=
  c.toNat == 0x20 || c.toNat == 0x09 || c.toNat == 0x0A || c.toNat == 0x0D ||
  c.toNat == 0x0B || c.toNat == 0x0C || c.toNat == 0xA0 || c.toNat == 0x1680 ||
  (0x2000 ≤ c.toNat && c.toNat ≤ 0x200A) || c.toNat == 0x2028 || c.toNat == 0x2029 ||
  c.toNat == 0x202F || c.toNat == 0x205F || c.toNat == 0x3000 || c.toNat == 0xFEFF

def jsDot (c : Char) : Bool :=
  !(c.toNat == 0x0A || c.toNat == 0x0D || c.toNat == 0x2028 || c.toNat == 0x2029)

def isDigitChar (c : Char) : Bool :=
  48 ≤ c.toNat && c.toNat ≤ 57

/-- JavaScript `String.prototype.trim` on a char list. -/
def jsTrimChars (cs : List Char) : List Char :=
  ((cs.dropWhile jsWs).reverse.dropWhile jsWs).reverse

/-- JavaScript `String.prototype.trim`. -/
def jsTrim (s : String) : String :=
  ⟨jsTrimChars s.data⟩

/-- JavaScript `String.prototype.split(sep)` for a one-character separator,
on char lists.  `split` of the empty string is `[""]`. -/
def splitOnChar (sep : Char) : List Char → List (List Char)
  | [] => [[]]
  | c :: cs =>
    if c = sep then [] :: splitOnChar sep cs
    else
      match splitOnChar sep cs with
      | [] => [[c]]
      | p :: ps => (c :: p) :: ps

/-- `Array.prototype.join(sep)` for a one-character separator, on char
lists (inverse of `splitOnChar` on separator-free pieces). -/
def joinChar (sep : Char) : List (List Char) → List Char
  | [] => []
  | [p] => p
  | p :: ps => p ++ sep :: joinChar sep ps

/-- Note content split into lines, as by `content.split('\n')`. -/
def contentLines (content : String) : List String :=
  (splitOnChar '\n' content.data).map fun cs => ⟨cs⟩

/-- Lines joined back into note content, as by `lines.join('\n')`. -/
def joinLines (ls : List String) : String :=
  ⟨joinChar '\n' (ls.map String.data)⟩

/-- Value of a list of ASCII digit characters read in base 10 (the value
`parseInt` / `Number` produce on the all-digit strings that occur here). -/
def digitsToNat (cs : List Char) : Nat :=
  cs.foldl (fun acc c => acc * 10 + (c.toNat - 48)) 0

/-- JavaScript `parseInt` restricted to the inputs that occur in this code
base: reads the longest ASCII-digit prefix (0 when there is none; in JS that
case is NaN, which is unreachable because every call site validates its
input first). -/
def jsParseIntNat (s : String) : Nat :=
  digitsToNat (s.data.takeWhile isDigitChar)

/-- JavaScript `indexOf`-style search for the last occurrence of a
character (`String.prototype.lastIndexOf`); `none` models -1. -/
def lastIndexOfChar (c : Char) : List Char → Option Nat
  | [] => none
  | x :: xs =>
    match lastIndexOfChar c xs with
    | some i => some (i + 1)
    | none => if x = c then some 0 else none

/-! ### utils.ts -/

inductive LoggerErrorType where
  | DIRECTORY_NOT_FOUND
  | HEADER_NOT_FOUND
  | FILE_WRITE_ERROR
  | INVALID_ARGUMENTS
  | INVALID_TIME_FORMAT
  | NO_ENTRIES_TO_UNDO
  | FILE_NOT_FOUND
deriving DecidableEq

/-- Result type of the core operations (`LoggerResult<T>` in types.ts); the
error branch keeps only the claim-relevant `LoggerErrorType`. -/
abbrev LoggerResult (α : Type) := Except LoggerErrorType α

structure LogEntry where
  time : String
  message : String
  raw : String
deriving DecidableEq

structure TodaySection where
  startIndex : Nat
  endIndex : Nat
  lines : List String
deriving DecidableEq

structure LoggerConfig where
  journalDir : String
  todayHeader : String
deriving DecidableEq

structure AddEntryCommand where
  message : String
  customTime : Option String
deriving DecidableEq

/-- The fields of a JavaScript `Date` that the core reads (local
wall-clock).  A real `Date` satisfies `hour ≤ 23` and `minute ≤ 59`; where a
theorem needs that fact it is a hypothesis. -/
structure JsDate where
  year : Nat
  month : Nat
  day : Nat
  hour : Nat
  minute : Nat
deriving DecidableEq

/-- Model of the chrono-node library: for a time reference string, the
`result.start.date()` of the first parse result, or `none` when parsing
yields no results (or throws). -/
abbrev ChronoOracle := String → Option JsDate

/-- Embedding of `padZero` from utils.ts. -/
def padZero (num : Nat) (length : Nat) : String :=
  if (toString num).length ≥ length then toString num
  else ⟨List.replicate (length - (toString num).length) '0'⟩ ++ toString num

/-- Date part of today's filename, `YYYY-MM-DD` (from `getTodayFilename`,
whose `.md` suffix `createDailyNoteTemplate` strips again with
`.replace('.md', '')`; the date part never contains a '.', so stripping the
suffix recovers exactly this string). -/
def getTodayDateString (today : JsDate) : String :=
  toString today.year ++ "-" ++ padZero today.month 2 ++ "-" ++ padZero today.day 2

/-- Embedding of `getTodayFilename` from utils.ts. -/
def getTodayFilename (today : JsDate) : String :=
  getTodayDateString today ++ ".md"

/-- Embedding of `getCurrentTime` from utils.ts. -/
def getCurrentTime (now : JsDate) : String :=
  padZero now.hour 2 ++ ":" ++ padZero now.minute 2

/-- Embedding of `validateTimeFormat` from utils.ts: full match of the regex
`^([0-1]?[0-9]|2[0-3]):[0-5][0-9]$`.  The hour is one digit, or two digits
starting with 0/1, or 20–23; the minutes are exactly two digits, the first
0–5. -/
def validateTimeFormat (timeString : String) : Bool :=
  match timeString.data with
  | [a, ':', b, c] =>
    isDigitChar a && (48 ≤ b.toNat && b.toNat ≤ 53) && isDigitChar c
  | [a₁, a₂, ':', b, c] =>
    ((a₁ == '0' || a₁ == '1') && isDigitChar a₂ ||
      a₁ == '2' && (48 ≤ a₂.toNat && a₂.toNat ≤ 51)) &&
    (48 ≤ b.toNat && b.toNat ≤ 53) && isDigitChar c
  | _ => false

/-- Embedding of `formatTime` from utils.ts:
`const [hours, minutes] = timeString.split(':')` followed by
`padZero(parseInt(hours)) + ':' + padZero(parseInt(minutes))`. -/
def formatTime (timeString : String) : String :=
  let parts := splitOnChar ':' timeString.data
  let hours : String := ⟨parts.getD 0 []⟩
  let minutes : String := ⟨parts.getD 1 []⟩
  padZero (jsParseIntNat hours) 2 ++ ":" ++ padZero (jsParseIntNat minutes) 2

/-! ### The line-entry regex

`parseLogEntry` matches `/^-\s+(?:\*\*)?(\d{1,2}:\d{2})(?:\*\*)?\s+(.+)$/`.
The embedding below implements the backtracking semantics of that regex
deterministically.  Each committed choice is forced, because the character
classes at the choice boundaries are disjoint:

  * `\s+` is effectively a maximal run — giving back a whitespace character
    would place it where `*` or a digit is required, and no whitespace
    character is `*` or a digit;
  * each `(?:\*\*)?` consumes `**` exactly when the next two characters are
    `**` — skipping a present `**` would place `*` where a digit (first
    occurrence) or a whitespace character (second occurrence) is required;
  * `\d{1,2}` takes two digits when `\d\d:\d\d` fits, else one when
    `\d:\d\d` fits; the alternatives cannot both continue, since the
    two-digit form puts a digit where the one-digit form needs `:`;
  * the final `\s+(.+)$` is matched greedily: if a non-whitespace suffix
    remains it is the captured message (all its characters must be matched
    by `.`, so any contained line terminator fails the whole match, and no
    shorter `\s+` can help since the suffix stays inside the message); if
    the rest is whitespace only, `\s+` backs off exactly one character,
    which becomes the message provided it is matched by `.`. -/

/-- Optional `(?:\*\*)?`: consume a leading `**` when present. -/
def stripBold : List Char → List Char
  | '*' :: '*' :: r => r
  | r => r

/-- The alternative `\d\d:\d\d` of the time token. -/
def matchTime2 : List Char → Option (List Char × List Char)
  | d₁ :: d₂ :: ':' :: m₁ :: m₂ :: r =>
    if isDigitChar d₁ && isDigitChar d₂ && isDigitChar m₁ && isDigitChar m₂ then
      some ([d₁, d₂, ':', m₁, m₂], r)
    else none
  | _ => none

/-- The alternative `\d:\d\d` of the time token. -/
def matchTime1 : List Char → Option (List Char × List Char)
  | d₁ :: ':' :: m₁ :: m₂ :: r =>
    if isDigitChar d₁ && isDigitChar m₁ && isDigitChar m₂ then
      some ([d₁, ':', m₁, m₂], r)
    else none
  | _ => none

/-- Greedy `\d{1,2}:\d{2}`: two digits preferred, one as fallback. -/
def matchTimeTok (cs : List Char) : Option (List Char × List Char) :=
  match matchTime2 cs with
  | some x => some x
  | none => matchTime1 cs

/-- The trailing `\s+(.+)$` with its captured message. -/
def matchTail (r : List Char) : Option (List Char) :=
  let w := r.takeWhile jsWs
  let m := r.dropWhile jsWs
  if w.isEmpty then none
  else if m.isEmpty then
    match w.getLast? with
    | some c => if w.length ≥ 2 && jsDot c then some [c] else none
    | none => none
  else if m.all jsDot then some m else none

/-- The full regex of `parseLogEntry` on a char list, returning the two
captured groups (time token, message). -/
def parseEntryChars (cs : List Char) : Option (List Char × List Char) :=
  match cs with
  | '-' :: rest =>
    let w := rest.takeWhile jsWs
    let r₁ := rest.dropWhile jsWs
    if w.isEmpty then none
    else
      match matchTimeTok (stripBold r₁) with
      | none => none
      | some (t, r₃) => (matchTail (stripBold r₃)).map fun m => (t, m)
  | _ => none

/-- Embedding of `parseLogEntry` from utils.ts. -/
def parseLogEntry (line : String) : Option LogEntry :=
  match parseEntryChars line.data with
  | some (t, m) => some ⟨⟨t⟩, ⟨m⟩, line⟩
  | none => none

/-- Time-of-day sort key in total minutes since midnight, as computed by
`compareTimeStrings` (`split(':').map(Number)`; the time strings that reach
it are all-digit on both sides of the colon, where `Number` agrees with
`digitsToNat`). -/
def timeToMinutes (s : String) : Nat :=
  match splitOnChar ':' s.data with
  | h :: m :: _ => digitsToNat h * 60 + digitsToNat m
  | [h] => digitsToNat h * 60
  | [] => 0

/-- Embedding of `compareTimeStrings` from utils.ts. -/
def compareTimeStrings (timeA timeB : String) : Int :=
  (timeToMinutes timeA : Int) - (timeToMinutes timeB : Int)

/-- The sort key of an entry. -/
def entryKey (e : LogEntry) : Nat :=
  timeToMinutes e.time

/-- The total preorder induced by the comparator `compareTimeStrings`. -/
def entryLe (a b : LogEntry) : Prop :=
  entryKey a ≤ entryKey b

instance : DecidableRel entryLe := fun a b => Nat.decLe _ _

instance : IsTotal LogEntry entryLe := ⟨fun a b => Nat.le_total _ _⟩

instance : IsTrans LogEntry entryLe := ⟨fun _ _ _ => Nat.le_trans⟩

/-- Embedding of `entries.sort((a, b) => compareTimeStrings(a.time, b.time))`.
`Array.prototype.sort` is required to be stable (ES2019), and for the
consistent comparator `compareTimeStrings` the stable sorted permutation is
unique, so it equals insertion sort on the induced preorder. -/
def sortEntries (l : List LogEntry) : List LogEntry :=
  List.insertionSort entryLe l

/-- Embedding of `createDailyNoteTemplate` from utils.ts. -/
def createDailyNoteTemplate (today : JsDate) : String :=
  "# " ++ getTodayDateString today ++ "\n\n## Today\n\n"

/-- Index of the first list element satisfying a predicate (the shape of
both scanning loops in `findTodaySection`). -/
def scanIdx (p : String → Bool) : List String → Option Nat
  | [] => none
  | l :: ls =>
    if p l then some 0
    else (scanIdx p ls).map (· + 1)

/-- The scan for the first line whose trimmed content equals the header. -/
def findHeaderIdx (headerText : String) (ls : List String) : Option Nat :=
  scanIdx (fun l => jsTrim l == headerText) ls

/-- The test `line.startsWith('## ')`. -/
def isHeaderLine (l : String) : Bool :=
  ['#', '#', ' '].isPrefixOf l.data

/-- The scan for the first line starting with `"## "`. -/
def findNextHeaderIdx (ls : List String) : Option Nat :=
  scanIdx isHeaderLine ls

/-- Embedding of `findTodaySection` from utils.ts. -/
def findTodaySection (content : String) (headerText : String) :
    Except LoggerErrorType TodaySection :=
  let lines := contentLines content
  match findHeaderIdx headerText lines with
  | none => .error .HEADER_NOT_FOUND
  | some i =>
    let endIndex :=
      match findNextHeaderIdx (lines.drop (i + 1)) with
      | none => lines.length
      | some j => i + 1 + j
    .ok ⟨i, endIndex, lines⟩

/-- The lines strictly inside a section (between the header and the next
top-level header or end of file). -/
def sectionBody (sec : TodaySection) : List String :=
  (sec.lines.drop (sec.startIndex + 1)).take (sec.endIndex - (sec.startIndex + 1))

/-- Embedding of `getTodayLogEntries` from utils.ts (extraction loop over
the section body followed by the chronological sort); the
`HEADER_NOT_FOUND` throw of `findTodaySection` becomes the error branch. -/
def getTodayLogEntries (content : String) (headerText : String) :
    Except LoggerErrorType (List LogEntry) :=
  (findTodaySection content headerText).map fun sec =>
    sortEntries ((sectionBody sec).filterMap parseLogEntry)

/-! ### timeParser.ts -/

structure ParsedMessage where
  message : String
  timestamp : Option String
  targetDate : Option String
  isNaturalLanguage : Bool
  isFutureDate : Bool
deriving DecidableEq

/-- Embedding of `getFilenameForDate` from timeParser.ts
(`padStart(2, '0')` on the decimal representation coincides with
`padZero _ 2`). -/
def getFilenameForDate (date : JsDate) : String :=
  toString date.year ++ "-" ++ padZero date.month 2 ++ "-" ++ padZero date.day 2 ++ ".md"

/-- Embedding of `isFutureDate` from timeParser.ts: both dates are
truncated to midnight (`setHours(0,0,0,0)`), so the comparison is the
lexicographic order on (year, month, day). -/
def isFutureDate (today : JsDate) (date : JsDate) : Bool :=
  today.year < date.year ||
  (today.year == date.year &&
    (today.month < date.month || (today.month == date.month && today.day < date.day)))

/-- Embedding of `parseMessageWithTime` from timeParser.ts. -/
def parseMessageWithTime (chrono : ChronoOracle) (today : JsDate) (input : String) :
    ParsedMessage :=
  match lastIndexOfChar '@' input.data with
  | none => ⟨jsTrim input, none, none, false, false⟩
  | some atIndex =>
    let message : String := jsTrim ⟨input.data.take atIndex⟩
    let timeReference : String := jsTrim ⟨input.data.drop (atIndex + 1)⟩
    if timeReference == "" then ⟨jsTrim input, none, none, false, false⟩
    else if validateTimeFormat timeReference then
      ⟨message, some (formatTime timeReference), none, false, false⟩
    else
      match chrono timeReference with
      | some parsedDate =>
        if isFutureDate today parsedDate then
          ⟨message, none, none, true, true⟩
        else
          ⟨message,
            some (padZero parsedDate.hour 2 ++ ":" ++ padZero parsedDate.minute 2),
            some (getFilenameForDate parsedDate), true, false⟩
      | none => ⟨jsTrim input, none, none, false, false⟩

/-! ### core.ts -/

/-- The storage gateway (`FileOperations`), abstracted as an association
list from paths to file contents. -/
abbrev FS := List (String × String)

/-- The `exists`/`read` pair: content of the file at a path, if any. -/
def lookupFS (fs : FS) (path : String) : Option String :=
  (fs.find? fun kv => kv.1 == path).map (·.2)

/-- The `write` operation: the new binding shadows any previous one. -/
def writeFS (fs : FS) (path : String) (content : String) : FS :=
  (path, content) :: fs

/-- Success payload of `addLogEntryCore`. -/
structure AddResultData where
  entryAdded : String
  totalEntries : Nat
  isNewFile : Bool
  parsedTime : Option String
deriving DecidableEq

/-- Success payload of `listTodayEntriesCore`. -/
structure ListResultData where
  entries : List LogEntry
  filename : String
deriving DecidableEq

/-- The canonical rendering of a new entry line (core.ts line 227):
`` `- **${timestamp}** ${finalMessage}` ``. -/
def renderEntryLine (timestamp finalMessage : String) : String :=
  "- **" ++ timestamp ++ "** " ++ finalMessage

/-- The note content an add operation works on: the existing file, or the
fresh template when the file does not exist. -/
def readOrTemplate (fs : FS) (filepath : String) (now : JsDate) : String :=
  (lookupFS fs filepath).getD (createDailyNoteTemplate now)

/-- Embedding of `addLogEntryCore` from core.ts.  Returns the result
together with the file system after the operation (unchanged unless the
single `fileOps.write` call was reached).  The thrown `HEADER_NOT_FOUND`
of `findTodaySection` / `getTodayLogEntries` is caught by the surrounding
try/catch and surfaces as the error branch. -/
def addLogEntryCore (command : AddEntryCommand) (config : LoggerConfig)
    (now : JsDate) (chrono : ChronoOracle) (fs : FS) :
    LoggerResult AddResultData × FS :=
  let filename := getTodayFilename now
  let filepath := config.journalDir ++ "/" ++ filename
  let parsed := parseMessageWithTime chrono now command.message
  -- timestamp priority: customTime > parsed @ time > current time
  let timestamp? : LoggerResult String :=
    match command.customTime with
    | some t =>
      if validateTimeFormat t then .ok (formatTime t)
      else .error .INVALID_TIME_FORMAT
    | none =>
      match parsed.timestamp with
      | some ts => .ok ts
      | none => .ok (getCurrentTime now)
  match timestamp? with
  | .error e => (.error e, fs)
  | .ok timestamp =>
    let finalMessage := parsed.message
    let logEntry := renderEntryLine timestamp finalMessage
    let content := readOrTemplate fs filepath now
    let isNewFile := (lookupFS fs filepath).isNone
    match findTodaySection content config.todayHeader with
    | .error e => (.error e, fs)
    | .ok sec =>
      match getTodayLogEntries content config.todayHeader with
      | .error e => (.error e, fs)
      | .ok existingEntries =>
        let newEntry : LogEntry := ⟨timestamp, finalMessage, logEntry⟩
        let allEntries := sortEntries (existingEntries ++ [newEntry])
        -- the descending splice loop removes exactly the parseable lines
        -- strictly inside the section; the subsequent splices insert the
        -- sorted entries directly after the header line
        let pre := sec.lines.take (sec.startIndex + 1)
        let kept := (sectionBody sec).filter fun l => (parseLogEntry l).isNone
        let rest := sec.lines.drop sec.endIndex
        let updatedContent := joinLines (pre ++ allEntries.map LogEntry.raw ++ kept ++ rest)
        (.ok ⟨logEntry, allEntries.length, isNewFile,
            if parsed.isNaturalLanguage then parsed.timestamp else none⟩,
          writeFS fs filepath updatedContent)

/-- Embedding of `listTodayEntriesCore` from core.ts. -/
def listTodayEntriesCore (config : LoggerConfig) (now : JsDate) (fs : FS) :
    LoggerResult ListResultData :=
  let filename := getTodayFilename now
  let filepath := config.journalDir ++ "/" ++ filename
  match lookupFS fs filepath with
  | none => .ok ⟨[], filename⟩
  | some content =>
    match getTodayLogEntries content config.todayHeader with
    | .error e => .error e
    | .ok entries => .ok ⟨entries, filename⟩

/-- Entries of the Today section of a note, in textual order (no sorting);
used to state properties of persisted content. -/
def sectionEntriesInOrder (content : String) (headerText : String) : List LogEntry :=
  match findTodaySection content headerText with
  | .ok sec => (sectionBody sec).filterMap parseLogEntry
  | .error _ => []

/-- Shape test: a string of exactly two ASCII digits. -/
def twoDigits (s : String) : Bool :=
  match s.data with
  | [a, b] => isDigitChar a && isDigitChar b
  | _ => false

/-- Shape test: a zero-padded `HH:mm` string (two digits, colon, two
digits); every resolved timestamp the core renders has this shape. -/
def timeShapeDigits (s : String) : Bool :=
  match s.data with
  | [a, b, ':', c, d] => isDigitChar a && isDigitChar b && isDigitChar c && isDigitChar d
  | _ => false

/-- The combined entry list an add operation persists: existing entries
(sorted by `getTodayLogEntries`) plus the new entry, re-sorted. -/
def mergedEntries (sec : TodaySection) (newEntry : LogEntry) : List LogEntry :=
  sortEntries (sortEntries ((sectionBody sec).filterMap parseLogEntry) ++ [newEntry])

/-! ### Declarative shape of an entry line

The regex of `parseLogEntry` as a declarative (existential) language
membership test: the line decomposes into bullet, whitespace run, optional
bold opener, time token, optional bold closer, whitespace run, and a
nonempty message of non-line-terminator characters.  `splits` enumerates
every prefix/suffix decomposition, so the `any`-chains below quantify over
every possible way the regex could match. -/

/-- All decompositions of a list into a prefix and a suffix. -/
def splits : List Char → List (List Char × List Char)
  | [] => [([], [])]
  | c :: r => ([], c :: r) :: (splits r).map (fun p => (c :: p.1, p.2))

/-- The two ways `(?:\*\*)?` can match: consume nothing, or a `**`. -/
def boldOptions (r : List Char) : List (List Char) :=
  [r] ++ (match r with
    | '*' :: '*' :: t => [t]
    | _ => [])

/-- The remainders after `\d{1,2}:\d{2}` matches a prefix (two-digit and
one-digit hour alternatives). -/
def timeTokSplits (cs : List Char) : List (List Char) :=
  (match cs with
   | d₁ :: d₂ :: ':' :: m₁ :: m₂ :: r =>
     if isDigitChar d₁ && isDigitChar d₂ && isDigitChar m₁ && isDigitChar m₂ then [r]
     else []
   | _ => []) ++
  (match cs with
   | d₁ :: ':' :: m₁ :: m₂ :: r =>
     if isDigitChar d₁ && isDigitChar m₁ && isDigitChar m₂ then [r] else []
   | _ => [])

/-- Whether some decomposition `\s+(.+)$` matches the whole of `cs`. -/
def tailShape (cs : List Char) : Bool :=
  (splits cs).any fun p =>
    !p.1.isEmpty && p.1.all jsWs && !p.2.isEmpty && p.2.all jsDot

/-- The language of the `parseLogEntry` regex
`/^-\s+(?:\*\*)?(\d{1,2}:\d{2})(?:\*\*)?\s+(.+)$/`, stated declaratively:
the amended shape of a recognized entry line.  Hours and minutes are
unconstrained two-digit strings (no 0–23 / 0–59 range check), each `**` is
independently optional, and the message must be nonempty and free of line
terminators. -/
def entryShapeAmended (cs : List Char) : Bool :=
  match cs with
  | '-' :: rest =>
    (splits rest).any fun p =>
      !p.1.isEmpty && p.1.all jsWs &&
      ((boldOptions p.2).any fun r₂ =>
        (timeTokSplits r₂).any fun r₃ =>
          (boldOptions r₃).any fun r₄ => tailShape r₄)
  | _ => false

/-- A strict `H:mm`/`HH:mm` token at the head of the list (hours 0–23,
minutes 0–59), returning the remainder; the time token the claim
describes. -/
def strictTimeSplits (cs : List Char) : List (List Char) :=
  (match cs with
   | h₁ :: h₂ :: ':' :: m₁ :: m₂ :: r =>
     if isDigitChar h₁ && isDigitChar h₂ && isDigitChar m₁ && isDigitChar m₂ &&
         decide ((h₁.toNat - 48) * 10 + (h₂.toNat - 48) ≤ 23) &&
         decide (m₁.toNat - 48 ≤ 5) then [r]
     else []
   | _ => []) ++
  (match cs with
   | h₁ :: ':' :: m₁ :: m₂ :: r =>
     if isDigitChar h₁ && isDigitChar m₁ && isDigitChar m₂ &&
         decide (m₁.toNat - 48 ≤ 5) then [r]
     else []
   | _ => [])

/-- The remainders after the claim's "optional bold-emphasis markers
around the time" plus a strict time token: either a bare time token, or
one enclosed on both sides by `**`. -/
def strictTimeWithBold (cs : List Char) : List (List Char) :=
  strictTimeSplits cs ++
  (match cs with
   | '*' :: '*' :: t =>
     (strictTimeSplits t).filterMap fun r =>
       match r with
       | '*' :: '*' :: r' => some r'
       | _ => none
   | _ => [])

/-- The claim's shape of an entry line: a leading bullet marker, optional
bold-emphasis markers around the time, a strict `H:mm`/`HH:mm` token
(hours 0–23, minutes 0–59), then the remainder of the line — arbitrary,
possibly empty — as the message. -/
def entryShapeClaimed (cs : List Char) : Bool :=
  match cs with
  | '-' :: rest =>
    (splits rest).any fun p =>
      !p.1.isEmpty && p.1.all jsWs &&
      !(strictTimeWithBold p.2).isEmpty
  | _ => false

/-! ### Shared concrete sample values for the claim instances -/

/-- A fixed local wall clock: 2025-06-07 13:30. -/
def sampleNow : JsDate := ⟨2025, 6, 7, 13, 30⟩

/-- The default configuration (journal directory `J`, header `## Today`). -/
def sampleConfig : LoggerConfig := ⟨"J", "## Today"⟩

/-- An oracle for which no reference parses. -/
def noChrono : ChronoOracle := fun _ => none

/-- An oracle resolving `tomorrow` to 2025-06-08 12:00 (cf. chrono-node). -/
def tomorrowChrono : ChronoOracle :=
  fun s => if s = "tomorrow" then some ⟨2025, 6, 8, 12, 0⟩ else none

/-- An oracle resolving `yesterday` to 2025-06-06 12:00 (cf. chrono-node). -/
def yesterdayChrono : ChronoOracle :=
  fun s => if s = "yesterday" then some ⟨2025, 6, 6, 12, 0⟩ else none

/-! ## Supporting lemmas -/

/-! ### Character classes -/

theorem not_jsWs_of_isDigitChar {c : Char} (h : isDigitChar c = true) : jsWs c = false := by
  simp only [isDigitChar, Bool.and_eq_true, decide_eq_true_eq] at h
  cases hw : jsWs c with
  | false => rfl
  | true =>
    exfalso
    simp only [jsWs, Bool.or_eq_true, beq_iff_eq, Bool.and_eq_true, decide_eq_true_eq] at hw
    omega

theorem jsDot_of_isDigitChar {c : Char} (h : isDigitChar c = true) : jsDot c = true := by
  simp only [isDigitChar, Bool.and_eq_true, decide_eq_true_eq] at h
  simp only [jsDot, Bool.not_eq_true']
  cases hd : (c.toNat == 0x0A || c.toNat == 0x0D || c.toNat == 0x2028 || c.toNat == 0x2029) with
  | false => rfl
  | true =>
    exfalso
    simp only [Bool.or_eq_true, beq_iff_eq] at hd
    omega

theorem ne_colon_of_isDigitChar {c : Char} (h : isDigitChar c = true) : c ≠ ':' := by
  intro hc; subst hc; exact absurd h (by decide)

theorem ne_star_of_isDigitChar {c : Char} (h : isDigitChar c = true) : c ≠ '*' := by
  intro hc; subst hc; exact absurd h (by decide)

theorem ne_at_of_isDigitChar {c : Char} (h : isDigitChar c = true) : c ≠ '@' := by
  intro hc; subst hc; exact absurd h (by decide)

theorem ne_newline_of_isDigitChar {c : Char} (h : isDigitChar c = true) : c ≠ '\n' := by
  intro hc; subst hc; exact absurd h (by decide)

/-! ### takeWhile / dropWhile spans -/

theorem takeWhile_append_of {p : Char → Bool} :
    ∀ {w r : List Char}, (∀ c ∈ w, p c = true) →
      (∀ c, r.head? = some c → p c = false) → (w ++ r).takeWhile p = w
  | [], r, _, hr => by
    cases r with
    | nil => rfl
    | cons c cs => simp [List.takeWhile_cons, hr c rfl]
  | a :: w, r, hw, hr => by
    have ha := hw a (List.mem_cons_self a w)
    simp only [List.cons_append, List.takeWhile_cons, ha, if_true]
    rw [takeWhile_append_of (fun c hc => hw c (List.mem_cons_of_mem a hc)) hr]

theorem dropWhile_append_of {p : Char → Bool} :
    ∀ {w r : List Char}, (∀ c ∈ w, p c = true) →
      (∀ c, r.head? = some c → p c = false) → (w ++ r).dropWhile p = r
  | [], r, _, hr => by
    cases r with
    | nil => rfl
    | cons c cs => simp [List.dropWhile_cons, hr c rfl]
  | a :: w, r, hw, hr => by
    have ha := hw a (List.mem_cons_self a w)
    simp only [List.cons_append, List.dropWhile_cons, ha, if_true]
    exact dropWhile_append_of (fun c hc => hw c (List.mem_cons_of_mem a hc)) hr

theorem takeWhile_eq_self_of {p : Char → Bool} {l : List Char}
    (h : ∀ c ∈ l, p c = true) : l.takeWhile p = l := by
  have := takeWhile_append_of (p := p) (r := []) h (by intro c hc; simp at hc)
  simpa using this

theorem dropWhile_eq_nil_of {p : Char → Bool} {l : List Char}
    (h : ∀ c ∈ l, p c = true) : l.dropWhile p = [] := by
  have := dropWhile_append_of (p := p) (r := []) h (by intro c hc; simp at hc)
  simpa using this

theorem dropWhile_append_all {p : Char → Bool} :
    ∀ {w m : List Char}, (∀ c ∈ w, p c = true) →
      (w ++ m).dropWhile p = m.dropWhile p
  | [], m, _ => by simp
  | a :: w, m, hw => by
    have ha := hw a (List.mem_cons_self a w)
    simp only [List.cons_append, List.dropWhile_cons, ha, if_true]
    exact dropWhile_append_all fun c hc => hw c (List.mem_cons_of_mem a hc)

/-! ### splitOnChar / joinChar -/

theorem splitOnChar_ne_nil (sep : Char) : ∀ cs : List Char, splitOnChar sep cs ≠ []
  | [] => by simp [splitOnChar]
  | c :: cs => by
    simp only [splitOnChar]
    split
    · simp
    · rcases h : splitOnChar sep cs with _ | ⟨p, ps⟩ <;> simp

theorem mem_splitOnChar_not_sep (sep : Char) :
    ∀ (cs : List Char), ∀ p ∈ splitOnChar sep cs, sep ∉ p
  | [], p, hp => by
    simp only [splitOnChar, List.mem_singleton] at hp
    subst hp; simp
  | c :: cs, p, hp => by
    simp only [splitOnChar] at hp
    split at hp
    · rcases List.mem_cons.1 hp with h | h
      · subst h; simp
      · exact mem_splitOnChar_not_sep sep cs p h
    · rename_i hc
      rcases h : splitOnChar sep cs with _ | ⟨q, qs⟩
      · exact absurd h (splitOnChar_ne_nil sep cs)
      · rw [h] at hp
        rcases List.mem_cons.1 hp with h' | h'
        · subst h'
          intro hmem
          rcases List.mem_cons.1 hmem with h'' | h''
          · exact hc h''.symm
          · exact mem_splitOnChar_not_sep sep cs q (h ▸ List.mem_cons_self q qs) h''
        · exact mem_splitOnChar_not_sep sep cs p (h ▸ List.mem_cons_of_mem q h')

theorem splitOnChar_of_not_mem (sep : Char) :
    ∀ (p : List Char), sep ∉ p → splitOnChar sep p = [p]
  | [], _ => rfl
  | c :: cs, h => by
    have hc : ¬(c = sep) := fun e => h (e ▸ List.mem_cons_self c cs)
    rw [splitOnChar, if_neg hc,
      splitOnChar_of_not_mem sep cs (fun m => h (List.mem_cons_of_mem c m))]

theorem splitOnChar_join (sep : Char) :
    ∀ (ps : List (List Char)) (p : List Char), sep ∉ p → (∀ q ∈ ps, sep ∉ q) →
      splitOnChar sep (joinChar sep (p :: ps)) = p :: ps := by
  intro ps
  induction ps with
  | nil =>
    intro p hp _
    exact splitOnChar_of_not_mem sep p hp
  | cons q qs ih =>
    intro p hp hps
    induction p with
    | nil =>
      have hjoin : joinChar sep ([] :: q :: qs) = sep :: joinChar sep (q :: qs) := by
        simp [joinChar]
      rw [hjoin, splitOnChar, if_pos rfl,
        ih q (hps q (List.mem_cons_self q qs)) (fun r hr => hps r (List.mem_cons_of_mem q hr))]
    | cons c cs ihp =>
      have hc : ¬(c = sep) := fun e => hp (e ▸ List.mem_cons_self c cs)
      have hcs : sep ∉ cs := fun m => hp (List.mem_cons_of_mem c m)
      have hjoin : joinChar sep ((c :: cs) :: q :: qs) = c :: joinChar sep (cs :: q :: qs) := by
        simp [joinChar]
      rw [hjoin, splitOnChar, if_neg hc, ihp hcs]

theorem contentLines_joinLines (ls : List String) (hne : ls ≠ [])
    (hnl : ∀ l ∈ ls, '\n' ∉ l.data) : contentLines (joinLines ls) = ls := by
  cases ls with
  | nil => exact absurd rfl hne
  | cons p ps =>
    unfold contentLines joinLines
    have : (joinChar '\n' ((p :: ps).map String.data) : List Char) =
        joinChar '\n' (p.data :: ps.map String.data) := by simp
    rw [this]
    rw [splitOnChar_join '\n' (ps.map String.data) p.data
      (hnl p (List.mem_cons_self p ps))
      (by
        intro q hq
        rcases List.mem_map.1 hq with ⟨l, hl, rfl⟩
        exact hnl l (List.mem_cons_of_mem p hl))]
    have hid : ((fun cs => (⟨cs⟩ : String)) ∘ String.data) = id := funext fun l => rfl
    simp only [List.map_cons, List.map_map, hid, List.map_id]

theorem mem_contentLines_no_newline (content : String) :
    ∀ l ∈ contentLines content, '\n' ∉ l.data := by
  intro l hl
  rcases List.mem_map.1 hl with ⟨p, hp, rfl⟩
  exact mem_splitOnChar_not_sep '\n' content.data p hp

/-! ### scanIdx -/

theorem scanIdx_eq_none_iff (p : String → Bool) :
    ∀ ls : List String, scanIdx p ls = none ↔ ∀ l ∈ ls, p l = false
  | [] => by simp [scanIdx]
  | l :: ls => by
    simp only [scanIdx]
    split
    · rename_i hl
      constructor
      · intro h; cases h
      · intro h
        exact absurd hl (by simp [h l (List.mem_cons_self l ls)])
    · rename_i hl
      simp only [Option.map_eq_none', scanIdx_eq_none_iff p ls, List.mem_cons]
      constructor
      · intro h m hm
        rcases hm with rfl | hm
        · exact Bool.not_eq_true _ ▸ by simpa using hl
        · exact h m hm
      · intro h m hm
        exact h m (Or.inr hm)

theorem scanIdx_append (p : String → Bool) :
    ∀ xs ys : List String, scanIdx p (xs ++ ys) =
      match scanIdx p xs with
      | some i => some i
      | none => (scanIdx p ys).map (· + xs.length)
  | [], ys => by simp [scanIdx]
  | x :: xs, ys => by
    simp only [List.cons_append, scanIdx]
    split
    · rfl
    · simp only [List.append_eq]
      rw [scanIdx_append p xs ys]
      cases h : scanIdx p xs with
      | some i => simp
      | none =>
        cases h' : scanIdx p ys with
        | some j => simp [List.length_cons]; omega
        | none => simp

/-- Splitting a list at the index returned by `scanIdx`. -/
theorem scanIdx_some_decomp (p : String → Bool) :
    ∀ (ls : List String) (i : Nat), scanIdx p ls = some i →
      ∃ xs x ys, ls = xs ++ x :: ys ∧ xs.length = i ∧
        (∀ l ∈ xs, p l = false) ∧ p x = true
  | [], i, h => by simp [scanIdx] at h
  | l :: ls, i, h => by
    simp only [scanIdx] at h
    split at h
    · rename_i hl
      cases h
      exact ⟨[], l, ls, by simp, rfl, by simp, hl⟩
    · rename_i hl
      rcases Option.map_eq_some'.1 h with ⟨j, hj, rfl⟩
      rcases scanIdx_some_decomp p ls j hj with ⟨xs, x, ys, rfl, hlen, hxs, hx⟩
      refine ⟨l :: xs, x, ys, by simp, by simp [hlen], ?_, hx⟩
      intro m hm
      rcases List.mem_cons.1 hm with rfl | hm
      · simpa using hl
      · exact hxs m hm

theorem scanIdx_of_decomp (p : String → Bool) (xs : List String) (x : String)
    (ys : List String) (hxs : ∀ l ∈ xs, p l = false) (hx : p x = true) :
    scanIdx p (xs ++ x :: ys) = some xs.length := by
  rw [scanIdx_append]
  rw [(scanIdx_eq_none_iff p xs).2 hxs]
  simp [scanIdx, hx]

/-! ### Digit strings, padZero, toString -/

theorem padZero_twoDigits : ∀ n, n ≤ 99 → twoDigits (padZero n 2) = true := by decide

theorem isDigitChar_digitChar : ∀ m, m < 10 → isDigitChar (Nat.digitChar m) = true := by
  decide

theorem toDigitsCore_digits :
    ∀ (f n : Nat) (ds : List Char), (∀ c ∈ ds, isDigitChar c = true) →
      ∀ c ∈ Nat.toDigitsCore 10 f n ds, isDigitChar c = true
  | 0, _, _, hds => hds
  | f + 1, n, ds, hds => by
    have hd : isDigitChar (Nat.digitChar (n % 10)) = true :=
      isDigitChar_digitChar _ (Nat.mod_lt _ (by omega))
    have hcons : ∀ c ∈ Nat.digitChar (n % 10) :: ds, isDigitChar c = true := by
      intro c hc
      rcases List.mem_cons.1 hc with rfl | hc
      · exact hd
      · exact hds c hc
    simp only [Nat.toDigitsCore]
    split
    · exact hcons
    · exact toDigitsCore_digits f (n / 10) _ hcons

theorem toString_nat_digits (n : Nat) : ∀ c ∈ (toString n).data, isDigitChar c = true := by
  have : (toString n).data = Nat.toDigitsCore 10 (n + 1) n [] := rfl
  rw [this]
  exact toDigitsCore_digits (n + 1) n [] (by intro c hc; cases hc)

theorem padZero_digits (n len : Nat) : ∀ c ∈ (padZero n len).data, isDigitChar c = true := by
  unfold padZero
  split
  · exact toString_nat_digits n
  · intro c hc
    rw [String.data_append] at hc
    rcases List.mem_append.1 hc with hc | hc
    · have : c = '0' := by
        have : (⟨List.replicate (len - (toString n).length) '0'⟩ : String).data =
            List.replicate (len - (toString n).length) '0' := rfl
        rw [this] at hc
        exact List.eq_of_mem_replicate hc
      subst this; decide
    · exact toString_nat_digits n c hc

theorem twoDigits_spec {s : String} (h : twoDigits s = true) :
    ∃ a b, s.data = [a, b] ∧ isDigitChar a = true ∧ isDigitChar b = true := by
  unfold twoDigits at h
  split at h
  · rename_i a b heq
    simp only [Bool.and_eq_true] at h
    exact ⟨a, b, heq, h.1, h.2⟩
  · exact Bool.noConfusion h

theorem timeShapeDigits_spec {s : String} (h : timeShapeDigits s = true) :
    ∃ a b c d, s.data = [a, b, ':', c, d] ∧ isDigitChar a = true ∧ isDigitChar b = true ∧
      isDigitChar c = true ∧ isDigitChar d = true := by
  unfold timeShapeDigits at h
  split at h
  · rename_i a b c d heq
    simp only [Bool.and_eq_true] at h
    exact ⟨a, b, c, d, heq, h.1.1.1, h.1.1.2, h.1.2, h.2⟩
  · exact Bool.noConfusion h

theorem timeShapeDigits_of {s : String} {a b c d : Char} (hs : s.data = [a, b, ':', c, d])
    (ha : isDigitChar a = true) (hb : isDigitChar b = true)
    (hc : isDigitChar c = true) (hd : isDigitChar d = true) :
    timeShapeDigits s = true := by
  unfold timeShapeDigits
  rw [hs]
  simp [ha, hb, hc, hd]

/-- A padded pair of bounded values has the canonical `HH:mm` shape. -/
theorem timeShapeDigits_pad {h m : Nat} (hh : h ≤ 99) (hm : m ≤ 99) :
    timeShapeDigits (padZero h 2 ++ ":" ++ padZero m 2) = true := by
  rcases twoDigits_spec (padZero_twoDigits h hh) with ⟨a, b, hab, ha, hb⟩
  rcases twoDigits_spec (padZero_twoDigits m hm) with ⟨c, d, hcd, hc, hd⟩
  refine timeShapeDigits_of ?_ ha hb hc hd
  rw [String.data_append, String.data_append, hab, hcd]
  rfl

/-- Characters of a `timeShapeDigits` string are digits or the colon: no
newline, so rendered entry lines stay on one line. -/
theorem timeShapeDigits_no_newline {s : String} (h : timeShapeDigits s = true) :
    '\n' ∉ s.data := by
  rcases timeShapeDigits_spec h with ⟨a, b, c, d, hs, ha, hb, hc, hd⟩
  rw [hs]
  intro hmem
  rcases List.mem_cons.1 hmem with e | hmem
  · exact ne_newline_of_isDigitChar ha e.symm
  rcases List.mem_cons.1 hmem with e | hmem
  · exact ne_newline_of_isDigitChar hb e.symm
  rcases List.mem_cons.1 hmem with e | hmem
  · exact absurd e (by decide)
  rcases List.mem_cons.1 hmem with e | hmem
  · exact ne_newline_of_isDigitChar hc e.symm
  rcases List.mem_cons.1 hmem with e | hmem
  · exact ne_newline_of_isDigitChar hd e.symm
  · cases hmem

/-! ### parseLogEntry: basic facts and rendered lines -/

theorem parseLogEntry_raw {l : String} {e : LogEntry} (h : parseLogEntry l = some e) :
    e.raw = l := by
  unfold parseLogEntry at h
  split at h
  · cases h; rfl
  · cases h

theorem parseLogEntry_idem {l : String} {e : LogEntry} (h : parseLogEntry l = some e) :
    parseLogEntry e.raw = some e := by
  rw [parseLogEntry_raw h]; exact h

theorem renderEntryLine_data {ts msg : String} {a b c d : Char}
    (hs : ts.data = [a, b, ':', c, d]) :
    (renderEntryLine ts msg).data =
      '-' :: ' ' :: '*' :: '*' ::
        (a :: b :: ':' :: c :: d :: ('*' :: '*' :: ' ' :: msg.data)) := by
  unfold renderEntryLine
  rw [String.data_append, String.data_append, String.data_append, hs]
  rfl

theorem parseEntryChars_render {ts : String} (msg : String) {a b c d : Char}
    (hs : ts.data = [a, b, ':', c, d])
    (ha : isDigitChar a = true) (hb : isDigitChar b = true)
    (hc : isDigitChar c = true) (hd : isDigitChar d = true) :
    parseEntryChars (renderEntryLine ts msg).data =
      (matchTail (' ' :: msg.data)).map fun m => ([a, b, ':', c, d], m) := by
  rw [renderEntryLine_data hs]
  have hws_sp : jsWs ' ' = true := by decide
  have hws_st : jsWs '*' = false := by decide
  unfold parseEntryChars
  simp only [List.takeWhile_cons, List.dropWhile_cons, hws_sp, hws_st, if_true, if_false,
    List.takeWhile_nil, List.dropWhile_nil, List.isEmpty_cons, Bool.false_eq_true]
  have h1 : stripBold ('*' :: '*' ::
      (a :: b :: ':' :: c :: d :: ('*' :: '*' :: ' ' :: msg.data))) =
      a :: b :: ':' :: c :: d :: ('*' :: '*' :: ' ' :: msg.data) := rfl
  rw [h1]
  have h2 : matchTimeTok (a :: b :: ':' :: c :: d :: ('*' :: '*' :: ' ' :: msg.data)) =
      some ([a, b, ':', c, d], '*' :: '*' :: ' ' :: msg.data) := by
    unfold matchTimeTok matchTime2
    simp [ha, hb, hc, hd]
  rw [h2]
  show (matchTail (stripBold ('*' :: '*' :: ' ' :: msg.data))).map
      (fun m => ([a, b, ':', c, d], m)) =
    (matchTail (' ' :: msg.data)).map fun m => ([a, b, ':', c, d], m)
  have h3 : stripBold ('*' :: '*' :: ' ' :: msg.data) = ' ' :: msg.data := rfl
  rw [h3]

theorem matchTail_space_msg {m : List Char} (hne : m ≠ [])
    (hhead : ∀ c, m.head? = some c → jsWs c = false)
    (hdot : ∀ c ∈ m, jsDot c = true) :
    matchTail (' ' :: m) = some m := by
  have hws_sp : jsWs ' ' = true := by decide
  have htw : m.takeWhile jsWs = [] := by
    cases m with
    | nil => rfl
    | cons c cs => simp [List.takeWhile_cons, hhead c rfl]
  have hdw : m.dropWhile jsWs = m := by
    cases m with
    | nil => rfl
    | cons c cs => simp [List.dropWhile_cons, hhead c rfl]
  unfold matchTail
  simp only [List.takeWhile_cons, List.dropWhile_cons, hws_sp, if_true, htw, hdw]
  rw [if_neg (by simp), if_neg (by simpa using hne), if_pos (by simpa using hdot)]

/-- A rendered line always recovers its timestamp when it is recognized at
all (the time token of the match is exactly the rendered `HH:mm`). -/
theorem parseLogEntry_render_time {ts : String} (hts : timeShapeDigits ts = true)
    (msg : String) {e : LogEntry}
    (h : parseLogEntry (renderEntryLine ts msg) = some e) :
    e.time = ts ∧ e.raw = renderEntryLine ts msg := by
  rcases timeShapeDigits_spec hts with ⟨a, b, c, d, hs, ha, hb, hc, hd⟩
  refine ⟨?_, parseLogEntry_raw h⟩
  unfold parseLogEntry at h
  rw [parseEntryChars_render msg hs ha hb hc hd] at h
  cases hmt : matchTail (' ' :: msg.data) with
  | none => rw [hmt] at h; cases h
  | some m =>
    rw [hmt] at h
    simp only [Option.map_some'] at h
    cases h
    show (⟨[a, b, ':', c, d]⟩ : String) = ts
    rw [← hs]

/-- A rendered line with a nonempty message that does not start with
whitespace and contains no line terminator parses back exactly. -/
theorem parseLogEntry_render_msgOk {ts msg : String} (hts : timeShapeDigits ts = true)
    (hne : msg.data ≠ [])
    (hhead : ∀ c, msg.data.head? = some c → jsWs c = false)
    (hdot : ∀ c ∈ msg.data, jsDot c = true) :
    parseLogEntry (renderEntryLine ts msg) = some ⟨ts, msg, renderEntryLine ts msg⟩ := by
  rcases timeShapeDigits_spec hts with ⟨a, b, c, d, hs, ha, hb, hc, hd⟩
  unfold parseLogEntry
  rw [parseEntryChars_render msg hs ha hb hc hd, matchTail_space_msg hne hhead hdot]
  simp only [Option.map_some']
  have h1 : (⟨[a, b, ':', c, d]⟩ : String) = ts := by rw [← hs]
  have h2 : (⟨msg.data⟩ : String) = msg := rfl
  rw [h1, h2]

/-- A rendered line with an empty message is not recognized as an entry. -/
theorem parseLogEntry_render_empty {ts : String} (hts : timeShapeDigits ts = true) :
    parseLogEntry (renderEntryLine ts "") = none := by
  rcases timeShapeDigits_spec hts with ⟨a, b, c, d, hs, ha, hb, hc, hd⟩
  unfold parseLogEntry
  rw [parseEntryChars_render "" hs ha hb hc hd]
  rfl

/-! ### Sorting: order and stability -/

theorem sortEntries_sorted (l : List LogEntry) : List.Sorted entryLe (sortEntries l) :=
  List.sorted_insertionSort entryLe l

theorem mem_sortEntries {l : List LogEntry} {x : LogEntry} :
    x ∈ sortEntries l ↔ x ∈ l :=
  List.mem_insertionSort entryLe

theorem filter_key_orderedInsert (k : Nat) (a : LogEntry) (l : List LogEntry) :
    (List.orderedInsert entryLe a l).filter (fun e => entryKey e == k) =
      if entryKey a == k then a :: l.filter (fun e => entryKey e == k)
      else l.filter (fun e => entryKey e == k) := by
  induction l with
  | nil =>
    by_cases hak : (entryKey a == k) = true <;>
      simp [List.orderedInsert, List.filter_cons, hak]
  | cons b t ih =>
    unfold List.orderedInsert
    by_cases hab : entryLe a b
    · rw [if_pos hab]
      by_cases hak : (entryKey a == k) = true <;>
        simp [List.filter_cons, hak]
    · rw [if_neg hab]
      have hba : entryKey b < entryKey a := Nat.lt_of_not_le fun h => hab h
      by_cases hak : (entryKey a == k) = true
      · have hak' : entryKey a = k := by simpa using hak
        have hbk : (entryKey b == k) = false :=
          beq_eq_false_iff_ne.2 (by omega)
        simp [List.filter_cons, hbk, ih, hak]
      · by_cases hbk : (entryKey b == k) = true <;>
          simp [List.filter_cons, hbk, ih, hak]

theorem filter_key_sortEntries (k : Nat) (l : List LogEntry) :
    (sortEntries l).filter (fun e => entryKey e == k) =
      l.filter (fun e => entryKey e == k) := by
  induction l with
  | nil => rfl
  | cons a t ih =>
    show (List.orderedInsert entryLe a (sortEntries t)).filter (fun e => entryKey e == k) = _
    rw [filter_key_orderedInsert]
    by_cases hak : (entryKey a == k) = true <;> simp [List.filter_cons, hak, ih]

theorem pairwise_key_filterMap {g : LogEntry → Option LogEntry} {l : List LogEntry}
    (hg : ∀ x ∈ l, ∀ y, g x = some y → entryKey y = entryKey x)
    (hl : List.Pairwise entryLe l) : List.Pairwise entryLe (l.filterMap g) := by
  induction l with
  | nil => simp
  | cons a t ih =>
    rcases List.pairwise_cons.1 hl with ⟨hhead, htail⟩
    have ih' := ih (fun x hx y hy => hg x (List.mem_cons_of_mem a hx) y hy) htail
    rw [List.filterMap_cons]
    cases hga : g a with
    | none => exact ih'
    | some b =>
      rw [List.pairwise_cons]
      refine ⟨?_, ih'⟩
      intro y hy
      rcases List.mem_filterMap.1 hy with ⟨x, hx, hgx⟩
      have hkb : entryKey b = entryKey a := hg a (List.mem_cons_self a t) b hga
      have hky : entryKey y = entryKey x := hg x (List.mem_cons_of_mem a hx) y hgx
      show entryKey b ≤ entryKey y
      rw [hkb, hky]
      exact hhead x hx

theorem filterMap_eq_map_of {g : LogEntry → Option LogEntry} {h : LogEntry → LogEntry} :
    ∀ {l : List LogEntry}, (∀ x ∈ l, g x = some (h x)) → l.filterMap g = l.map h
  | [], _ => rfl
  | a :: t, hg => by
    rw [List.filterMap_cons, hg a (List.mem_cons_self a t), List.map_cons,
      filterMap_eq_map_of fun x hx => hg x (List.mem_cons_of_mem a hx)]

theorem filter_key_map_of_key_eq {h : LogEntry → LogEntry} {l : List LogEntry} {k : Nat}
    (hk : ∀ x ∈ l, entryKey (h x) = entryKey x) :
    (l.map h).filter (fun e => entryKey e == k) =
      (l.filter (fun e => entryKey e == k)).map h := by
  induction l with
  | nil => rfl
  | cons a t ih =>
    have hka := hk a (List.mem_cons_self a t)
    have ih' := ih fun x hx => hk x (List.mem_cons_of_mem a hx)
    rw [List.map_cons, List.filter_cons, List.filter_cons]
    by_cases hak : (entryKey a == k) = true
    · have : (entryKey (h a) == k) = true := by
        simp only [beq_iff_eq] at hak ⊢; rw [hka, hak]
      simp [this, hak, ih']
    · have : (entryKey (h a) == k) = false := by
        rw [hka]
        exact beq_eq_false_iff_ne.2 (by simpa using hak)
      simp [this, hak, ih']

/-! ### Locating the section in rebuilt content -/

theorem findTodaySection_ok {content header : String} {sec : TodaySection}
    (h : findTodaySection content header = .ok sec) :
    sec.lines = contentLines content ∧
    findHeaderIdx header sec.lines = some sec.startIndex ∧
    ((findNextHeaderIdx (sec.lines.drop (sec.startIndex + 1)) = none ∧
        sec.endIndex = sec.lines.length) ∨
      (∃ j, findNextHeaderIdx (sec.lines.drop (sec.startIndex + 1)) = some j ∧
        sec.endIndex = sec.startIndex + 1 + j)) := by
  unfold findTodaySection at h
  cases hidx : findHeaderIdx header (contentLines content) with
  | none =>
    simp only [hidx] at h
    exact Except.noConfusion h
  | some i =>
    simp only [hidx] at h
    cases hnext : findNextHeaderIdx ((contentLines content).drop (i + 1)) with
    | none =>
      simp only [hnext, Except.ok.injEq] at h
      subst h
      exact ⟨rfl, hidx, Or.inl ⟨hnext, rfl⟩⟩
    | some j =>
      simp only [hnext, Except.ok.injEq] at h
      subst h
      exact ⟨rfl, hidx, Or.inr ⟨j, hnext, rfl⟩⟩

/-- Decomposition of the located lines around the header line. -/
theorem findTodaySection_decomp {content header : String} {sec : TodaySection}
    (h : findTodaySection content header = .ok sec) :
    ∃ xs x ys, sec.lines = xs ++ x :: ys ∧ xs.length = sec.startIndex ∧
      (∀ l ∈ xs, (jsTrim l == header) = false) ∧ (jsTrim x == header) = true := by
  rcases findTodaySection_ok h with ⟨-, hidx, -⟩
  exact scanIdx_some_decomp _ sec.lines sec.startIndex hidx

theorem sectionBody_props {content header : String} {sec : TodaySection}
    (h : findTodaySection content header = .ok sec) :
    (∀ l ∈ sectionBody sec, isHeaderLine l = false) ∧
      (∀ l ∈ sectionBody sec, '\n' ∉ l.data) ∧
      sec.lines.drop (sec.startIndex + 1) = sectionBody sec ++ sec.lines.drop sec.endIndex := by
  rcases findTodaySection_ok h with ⟨hlines, hidx, hend⟩
  have hnl : ∀ l ∈ sectionBody sec, '\n' ∉ l.data := by
    intro l hl
    apply mem_contentLines_no_newline content l
    rw [← hlines]
    unfold sectionBody at hl
    exact List.mem_of_mem_drop (List.mem_of_mem_take hl)
  rcases hend with ⟨hnone, hlen⟩ | ⟨j, hsome, hlen⟩
  · have hall : ∀ l ∈ sec.lines.drop (sec.startIndex + 1), isHeaderLine l = false :=
      (scanIdx_eq_none_iff _ _).1 hnone
    have hbody : sectionBody sec = sec.lines.drop (sec.startIndex + 1) := by
      unfold sectionBody
      apply List.take_of_length_le
      rw [List.length_drop, hlen]
    constructor
    · intro l hl; exact hall l (hbody ▸ hl)
    · refine ⟨hnl, ?_⟩
      rw [hbody, hlen, List.drop_length, List.append_nil]
  · rcases scanIdx_some_decomp _ _ _ hsome with ⟨bs, b, cs, hdecomp, hblen, hbs, hb⟩
    have hbody : sectionBody sec = bs := by
      unfold sectionBody
      rw [hdecomp, hlen]
      have : sec.startIndex + 1 + j - (sec.startIndex + 1) = j := by omega
      rw [this, ← hblen, List.take_left bs (b :: cs)]
    have hrest : sec.lines.drop sec.endIndex = b :: cs := by
      have h1 : sec.lines.drop sec.endIndex =
          (sec.lines.drop (sec.startIndex + 1)).drop j := by
        rw [List.drop_drop, hlen]
      rw [h1, hdecomp, ← hblen, List.drop_left bs (b :: cs)]
    constructor
    · intro l hl; rw [hbody] at hl; exact hbs l hl
    · refine ⟨hnl, ?_⟩
      rw [hbody, hrest, hdecomp]

/-- The central rebuild property: replacing the section body with any list
of newline-free, non-header lines relocates the same section around the
new body in the persisted content. -/
theorem rebuild_spec {content header : String} {sec : TodaySection}
    (hfind : findTodaySection content header = .ok sec)
    (newBody : List String)
    (hnb_hdr : ∀ l ∈ newBody, isHeaderLine l = false)
    (hnb_nl : ∀ l ∈ newBody, '\n' ∉ l.data) :
    findTodaySection
        (joinLines (sec.lines.take (sec.startIndex + 1) ++ newBody ++
          sec.lines.drop sec.endIndex)) header =
      .ok ⟨sec.startIndex, sec.startIndex + 1 + newBody.length,
        sec.lines.take (sec.startIndex + 1) ++ newBody ++ sec.lines.drop sec.endIndex⟩ ∧
    sectionBody ⟨sec.startIndex, sec.startIndex + 1 + newBody.length,
        sec.lines.take (sec.startIndex + 1) ++ newBody ++ sec.lines.drop sec.endIndex⟩ =
      newBody := by
  rcases findTodaySection_ok hfind with ⟨hlines, hidx, hend⟩
  rcases scanIdx_some_decomp _ _ _ hidx with ⟨xs, x, ys, hdecomp, hxlen, hxs, hx⟩
  have hpre : sec.lines.take (sec.startIndex + 1) = xs ++ [x] := by
    rw [hdecomp, ← hxlen, List.take_append 1]
    rfl
  have hprelen : (sec.lines.take (sec.startIndex + 1)).length = sec.startIndex + 1 := by
    rw [hpre, List.length_append, hxlen]
    rfl
  -- rest is either empty or starts with a '## ' line
  have hrest : (sec.lines.drop sec.endIndex = [] ∧
        ∀ l ∈ sec.lines.drop (sec.startIndex + 1), isHeaderLine l = false) ∨
      (∃ b cs, sec.lines.drop sec.endIndex = b :: cs ∧ isHeaderLine b = true) := by
    rcases hend with ⟨hnone, hlen⟩ | ⟨j, hsome, hlen⟩
    · left
      constructor
      · rw [hlen, List.drop_length]
      · exact (scanIdx_eq_none_iff _ _).1 hnone
    · right
      rcases scanIdx_some_decomp _ _ _ hsome with ⟨bs, b, cs, hdecomp', hblen, hbs, hb⟩
      refine ⟨b, cs, ?_, hb⟩
      have h1 : sec.lines.drop sec.endIndex =
          (sec.lines.drop (sec.startIndex + 1)).drop j := by
        rw [List.drop_drop, hlen]
      rw [h1, hdecomp', ← hblen, List.drop_left bs (b :: cs)]
  -- every line of the rebuilt list is newline-free
  have hnl_all : ∀ l ∈ sec.lines.take (sec.startIndex + 1) ++ newBody ++
      sec.lines.drop sec.endIndex, '\n' ∉ l.data := by
    intro l hl
    rcases List.mem_append.1 hl with hl | hl
    · rcases List.mem_append.1 hl with hl | hl
      · exact mem_contentLines_no_newline content l (hlines ▸ List.mem_of_mem_take hl)
      · exact hnb_nl l hl
    · exact mem_contentLines_no_newline content l (hlines ▸ List.mem_of_mem_drop hl)
  have hne : sec.lines.take (sec.startIndex + 1) ++ newBody ++
      sec.lines.drop sec.endIndex ≠ [] := by
    rw [hpre]
    simp
  have hsplit : contentLines (joinLines (sec.lines.take (sec.startIndex + 1) ++ newBody ++
      sec.lines.drop sec.endIndex)) =
      sec.lines.take (sec.startIndex + 1) ++ newBody ++ sec.lines.drop sec.endIndex :=
    contentLines_joinLines _ hne hnl_all
  -- header index in the rebuilt lines
  have hidx' : findHeaderIdx header (sec.lines.take (sec.startIndex + 1) ++ newBody ++
      sec.lines.drop sec.endIndex) = some sec.startIndex := by
    have hassoc : sec.lines.take (sec.startIndex + 1) ++ newBody ++
        sec.lines.drop sec.endIndex =
        xs ++ x :: (newBody ++ sec.lines.drop sec.endIndex) := by
      rw [hpre]
      simp
    rw [hassoc]
    unfold findHeaderIdx
    rw [scanIdx_of_decomp _ xs x _ hxs hx, hxlen]
  -- the scan for the next header in the rebuilt tail
  have hdrop : (sec.lines.take (sec.startIndex + 1) ++ newBody ++
      sec.lines.drop sec.endIndex).drop (sec.startIndex + 1) =
      newBody ++ sec.lines.drop sec.endIndex := by
    have hd := List.drop_left (sec.lines.take (sec.startIndex + 1))
      (newBody ++ sec.lines.drop sec.endIndex)
    rw [hprelen] at hd
    rw [List.append_assoc, hd]
  have hnext' : (match findNextHeaderIdx (newBody ++ sec.lines.drop sec.endIndex) with
      | none => (sec.lines.take (sec.startIndex + 1) ++ newBody ++
          sec.lines.drop sec.endIndex).length
      | some j => sec.startIndex + 1 + j) = sec.startIndex + 1 + newBody.length := by
    unfold findNextHeaderIdx
    rw [scanIdx_append]
    rw [(scanIdx_eq_none_iff _ _).2 hnb_hdr]
    rcases hrest with ⟨hnil, -⟩ | ⟨b, cs, hcons, hb⟩
    · rw [hnil]
      simp only [scanIdx, Option.map_none']
      rw [List.length_append, List.length_append, hprelen]
      simp
    · rw [hcons]
      simp only [scanIdx, hb, if_true, Option.map_some']
      show sec.startIndex + 1 + (0 + newBody.length) = sec.startIndex + 1 + newBody.length
      omega
  constructor
  · unfold findTodaySection
    simp only [hsplit, hidx', hdrop]
    rw [hnext']
  · show ((sec.lines.take (sec.startIndex + 1) ++ newBody ++
        sec.lines.drop sec.endIndex).drop (sec.startIndex + 1)).take
      (sec.startIndex + 1 + newBody.length - (sec.startIndex + 1)) = newBody
    rw [hdrop]
    have harith : sec.startIndex + 1 + newBody.length - (sec.startIndex + 1) =
        newBody.length := by omega
    rw [harith]
    exact List.take_left newBody _

/-! ### Anatomy of a successful add operation -/

theorem lookupFS_writeFS_same (fs : FS) (p c : String) :
    lookupFS (writeFS fs p c) p = some c := by
  unfold lookupFS writeFS
  simp [List.find?_cons]

theorem lookupFS_writeFS_other (fs : FS) (p c q : String) (h : q ≠ p) :
    lookupFS (writeFS fs p c) q = lookupFS fs q := by
  unfold lookupFS writeFS
  rw [List.find?_cons]
  have : ((p, c).1 == q) = false := by
    simp only [beq_eq_false_iff_ne, ne_eq]
    exact fun e => h e.symm
  rw [this]

theorem addLogEntryCore_ok_spec
    {command : AddEntryCommand} {config : LoggerConfig} {now : JsDate}
    {chrono : ChronoOracle} {fs : FS} {d : AddResultData} {fs' : FS}
    (h : addLogEntryCore command config now chrono fs = (.ok d, fs')) :
    ∃ timestamp sec,
      ((∃ t, command.customTime = some t ∧ validateTimeFormat t = true ∧
          timestamp = formatTime t) ∨
        (command.customTime = none ∧
          (parseMessageWithTime chrono now command.message).timestamp = some timestamp) ∨
        (command.customTime = none ∧
          (parseMessageWithTime chrono now command.message).timestamp = none ∧
          timestamp = getCurrentTime now)) ∧
      findTodaySection (readOrTemplate fs (config.journalDir ++ "/" ++ getTodayFilename now) now)
        config.todayHeader = .ok sec ∧
      d.entryAdded = renderEntryLine timestamp
        (parseMessageWithTime chrono now command.message).message ∧
      d.isNewFile = (lookupFS fs (config.journalDir ++ "/" ++ getTodayFilename now)).isNone ∧
      fs' = writeFS fs (config.journalDir ++ "/" ++ getTodayFilename now)
        (joinLines (sec.lines.take (sec.startIndex + 1) ++
          ((mergedEntries sec ⟨timestamp,
            (parseMessageWithTime chrono now command.message).message,
            d.entryAdded⟩).map LogEntry.raw ++
          (((sectionBody sec).filter fun l => (parseLogEntry l).isNone) ++
          sec.lines.drop sec.endIndex)))) := by
  unfold addLogEntryCore at h
  have main : ∀ (ts : String) (pt : Option String),
      (match findTodaySection (readOrTemplate fs
          (config.journalDir ++ "/" ++ getTodayFilename now) now) config.todayHeader with
        | .error e => ((.error e : LoggerResult AddResultData), fs)
        | .ok sec =>
          match getTodayLogEntries (readOrTemplate fs
              (config.journalDir ++ "/" ++ getTodayFilename now) now) config.todayHeader with
          | .error e => ((.error e : LoggerResult AddResultData), fs)
          | .ok existingEntries =>
            ((.ok ⟨renderEntryLine ts (parseMessageWithTime chrono now command.message).message,
                (sortEntries (existingEntries ++ [⟨ts,
                  (parseMessageWithTime chrono now command.message).message,
                  renderEntryLine ts
                    (parseMessageWithTime chrono now command.message).message⟩])).length,
                (lookupFS fs (config.journalDir ++ "/" ++ getTodayFilename now)).isNone,
                pt⟩ :
                LoggerResult AddResultData),
              writeFS fs (config.journalDir ++ "/" ++ getTodayFilename now)
                (joinLines (sec.lines.take (sec.startIndex + 1) ++
                  (sortEntries (existingEntries ++ [⟨ts,
                    (parseMessageWithTime chrono now command.message).message,
                    renderEntryLine ts (parseMessageWithTime chrono now
                      command.message).message⟩])).map LogEntry.raw ++
                  ((sectionBody sec).filter fun l => (parseLogEntry l).isNone) ++
                  sec.lines.drop sec.endIndex)))) = ((.ok d : LoggerResult AddResultData), fs') →
      ∃ sec,
        findTodaySection (readOrTemplate fs
          (config.journalDir ++ "/" ++ getTodayFilename now) now) config.todayHeader = .ok sec ∧
        d.entryAdded = renderEntryLine ts
          (parseMessageWithTime chrono now command.message).message ∧
        d.isNewFile = (lookupFS fs (config.journalDir ++ "/" ++ getTodayFilename now)).isNone ∧
        fs' = writeFS fs (config.journalDir ++ "/" ++ getTodayFilename now)
          (joinLines (sec.lines.take (sec.startIndex + 1) ++
            ((mergedEntries sec ⟨ts,
              (parseMessageWithTime chrono now command.message).message,
              d.entryAdded⟩).map LogEntry.raw ++
            (((sectionBody sec).filter fun l => (parseLogEntry l).isNone) ++
            sec.lines.drop sec.endIndex)))) := by
    intro ts pt hm
    cases hfind : findTodaySection (readOrTemplate fs
        (config.journalDir ++ "/" ++ getTodayFilename now) now) config.todayHeader with
    | error e =>
      rw [hfind] at hm
      exact absurd (congrArg Prod.fst hm) (by simp)
    | ok sec =>
      rw [hfind] at hm
      have hentries : getTodayLogEntries (readOrTemplate fs
          (config.journalDir ++ "/" ++ getTodayFilename now) now) config.todayHeader =
          .ok (sortEntries ((sectionBody sec).filterMap parseLogEntry)) := by
        unfold getTodayLogEntries
        rw [hfind]
        rfl
      rw [hentries] at hm
      simp only [Prod.mk.injEq, Except.ok.injEq] at hm
      rcases hm with ⟨hd, hfs⟩
      subst hd
      refine ⟨sec, rfl, rfl, rfl, ?_⟩
      rw [← hfs]
      unfold mergedEntries
      simp [List.append_assoc]
  rcases hct : command.customTime with _ | t
  · rw [hct] at h
    simp only [] at h
    cases hpt : (parseMessageWithTime chrono now command.message).timestamp with
    | some ts =>
      rw [hpt] at h
      simp only [] at h
      rcases main ts _ h with ⟨sec, h1, h2, h3, h4⟩
      exact ⟨ts, sec, Or.inr (Or.inl ⟨rfl, rfl⟩), h1, h2, h3, h4⟩
    | none =>
      rw [hpt] at h
      simp only [] at h
      rcases main (getCurrentTime now) _ h with ⟨sec, h1, h2, h3, h4⟩
      exact ⟨getCurrentTime now, sec, Or.inr (Or.inr ⟨rfl, rfl, rfl⟩), h1, h2, h3, h4⟩
  · rw [hct] at h
    simp only [] at h
    by_cases hv : validateTimeFormat t = true
    · rw [if_pos hv] at h
      simp only [] at h
      rcases main (formatTime t) _ h with ⟨sec, h1, h2, h3, h4⟩
      exact ⟨formatTime t, sec, Or.inl ⟨t, rfl, hv, rfl⟩, h1, h2, h3, h4⟩
    · rw [if_neg hv] at h
      simp only [] at h
      exact absurd (congrArg Prod.fst h) (by simp)

/-! ## Claim theorems -/

/-- C1: the spec says an @-reference resolving to a calendar date strictly
after today is rejected with a future-date status and nothing is written.
The code violates this: with the clock at 2025-06-07 13:30 and chrono
resolving `tomorrow` to 2025-06-08, the resolver does report
`isFutureDate = true` and withholds the time, but `addLogEntryCore` never
consults that flag — it falls back to the current time, reports success,
and writes the entry into today's note. -/
theorem addLogEntryCore_c1_future_not_rejected :
    (parseMessageWithTime tomorrowChrono sampleNow "meeting prep @tomorrow").isFutureDate =
      true ∧
    (parseMessageWithTime tomorrowChrono sampleNow "meeting prep @tomorrow").timestamp =
      none ∧
    (addLogEntryCore ⟨"meeting prep @tomorrow", none⟩ sampleConfig sampleNow
        tomorrowChrono []).1 =
      .ok ⟨"- **13:30** meeting prep", 1, true, none⟩ ∧
    lookupFS (addLogEntryCore ⟨"meeting prep @tomorrow", none⟩ sampleConfig sampleNow
        tomorrowChrono []).2 "J/2025-06-07.md" =
      some "# 2025-06-07\n\n## Today\n- **13:30** meeting prep\n\n" :=
  ⟨rfl, rfl, rfl, rfl⟩

/-- C4: the spec says an @-reference resolving to a non-future date other
than today redirects the write to that date's note.  The code violates
this: with the clock at 2025-06-07 and chrono resolving `yesterday` to
2025-06-06, the resolver reports `targetDate = "2025-06-06.md"`, but
`addLogEntryCore` ignores it and writes to today's note
`J/2025-06-07.md`; yesterday's note is never created. -/
theorem addLogEntryCore_c4_target_date_ignored :
    (parseMessageWithTime yesterdayChrono sampleNow "drank coffee @yesterday").targetDate =
      some "2025-06-06.md" ∧
    (addLogEntryCore ⟨"drank coffee @yesterday", none⟩ sampleConfig sampleNow
        yesterdayChrono []).1 =
      .ok ⟨"- **12:00** drank coffee", 1, true, some "12:00"⟩ ∧
    lookupFS (addLogEntryCore ⟨"drank coffee @yesterday", none⟩ sampleConfig sampleNow
        yesterdayChrono []).2 "J/2025-06-07.md" =
      some "# 2025-06-07\n\n## Today\n- **12:00** drank coffee\n\n" ∧
    lookupFS (addLogEntryCore ⟨"drank coffee @yesterday", none⟩ sampleConfig sampleNow
        yesterdayChrono []).2 "J/2025-06-06.md" = none :=
  ⟨rfl, rfl, rfl, rfl⟩

/-- C5 (counterexample): the claim says the override `"9:5"` is accepted
and normalizes to `"09:05"`.  In fact `validateTimeFormat` requires two
minute digits, so `"9:5"` fails validation and the whole add operation
fails with `INVALID_TIME_FORMAT`, leaving the store untouched. -/
theorem addLogEntryCore_c5_nine_five_rejected :
    validateTimeFormat "9:5" = false ∧
    addLogEntryCore ⟨"standup", some "9:5"⟩ sampleConfig sampleNow noChrono
        [("J/2025-06-07.md", "# 2025-06-07\n\n## Today\n- **08:00** existing\n")] =
      (.error .INVALID_TIME_FORMAT,
        [("J/2025-06-07.md", "# 2025-06-07\n\n## Today\n- **08:00** existing\n")]) :=
  ⟨rfl, rfl⟩

/-- C5 (amended): an override of `"9:05"` is accepted and normalizes to
`"09:05"` in the written line, while the overrides `"9:5"` and `"24:00"`
make the operation fail with `INVALID_TIME_FORMAT` and no write occurs. -/
theorem addLogEntryCore_c5_amended :
    validateTimeFormat "9:05" = true ∧
    formatTime "9:05" = "09:05" ∧
    (addLogEntryCore ⟨"standup", some "9:05"⟩ sampleConfig sampleNow noChrono
        [("J/2025-06-07.md", "# 2025-06-07\n\n## Today\n- **08:00** existing\n")]).1 =
      .ok ⟨"- **09:05** standup", 2, false, none⟩ ∧
    lookupFS (addLogEntryCore ⟨"standup", some "9:05"⟩ sampleConfig sampleNow noChrono
        [("J/2025-06-07.md", "# 2025-06-07\n\n## Today\n- **08:00** existing\n")]).2
        "J/2025-06-07.md" =
      some "# 2025-06-07\n\n## Today\n- **08:00** existing\n- **09:05** standup\n" ∧
    addLogEntryCore ⟨"standup", some "9:5"⟩ sampleConfig sampleNow noChrono
        [("J/2025-06-07.md", "# 2025-06-07\n\n## Today\n- **08:00** existing\n")] =
      (.error .INVALID_TIME_FORMAT,
        [("J/2025-06-07.md", "# 2025-06-07\n\n## Today\n- **08:00** existing\n")]) ∧
    addLogEntryCore ⟨"standup", some "24:00"⟩ sampleConfig sampleNow noChrono
        [("J/2025-06-07.md", "# 2025-06-07\n\n## Today\n- **08:00** existing\n")] =
      (.error .INVALID_TIME_FORMAT,
        [("J/2025-06-07.md", "# 2025-06-07\n\n## Today\n- **08:00** existing\n")]) :=
  ⟨rfl, rfl, rfl, rfl, rfl, rfl⟩

/-- C3 (counterexample): the claim quantifies over every valid
(time-of-day, message) pair, where the data model only requires the
message to be non-empty after trimming.  The message `" x"` is valid in
that sense, but rendering `("09:05", " x")` and parsing the line back
yields the message `"x"`: the leading space is absorbed by the `\s+` of
the line regex, so the round-trip does not recover the pair. -/
theorem parseLogEntry_c3_leading_space_counterexample :
    jsTrim " x" ≠ "" ∧
    validateTimeFormat "09:05" = true ∧
    (parseLogEntry (renderEntryLine "09:05" " x")).map (fun e => (e.time, e.message)) =
      some ("09:05", "x") ∧
    (" x" : String) ≠ "x" :=
  ⟨by decide, rfl, rfl, by decide⟩

/-- C3 (amended): for every time-of-day (hours 0–23, minutes 0–59) and
every nonempty message whose first character is not whitespace and which
contains no line-terminator character, rendering the canonical line
`- **HH:mm** <message>` (zero-padded) and parsing it with the line parser
recovers exactly the same time string and message. -/
theorem parseLogEntry_c3_roundtrip (h m : Nat) (msg : String)
    (hh : h ≤ 23) (hm : m ≤ 59) (hne : msg.data ≠ [])
    (hhead : ∀ c, msg.data.head? = some c → jsWs c = false)
    (hdot : ∀ c ∈ msg.data, jsDot c = true) :
    parseLogEntry (renderEntryLine (padZero h 2 ++ ":" ++ padZero m 2) msg) =
      some ⟨padZero h 2 ++ ":" ++ padZero m 2, msg,
        renderEntryLine (padZero h 2 ++ ":" ++ padZero m 2) msg⟩ :=
  parseLogEntry_render_msgOk (timeShapeDigits_pad (by omega) (by omega)) hne hhead hdot

/-- Witness for the amended C3 at hours 9, minutes 5, message `x`. -/
theorem parseLogEntry_c3_roundtrip_witness :
    (9 ≤ 23 ∧ 5 ≤ 59 ∧ ("x" : String).data ≠ []) ∧
    parseLogEntry (renderEntryLine (padZero 9 2 ++ ":" ++ padZero 5 2) "x") =
      some ⟨padZero 9 2 ++ ":" ++ padZero 5 2, "x",
        renderEntryLine (padZero 9 2 ++ ":" ++ padZero 5 2) "x"⟩ :=
  ⟨⟨by decide, by decide, by decide⟩,
    parseLogEntry_c3_roundtrip 9 5 "x" (by decide) (by decide) (by decide)
      (by intro c hc; cases hc; decide) (by decide)⟩

/-- C9: the list-entries operation returns success with an empty list both
when no note exists for today and when today's note has a Today section
containing no recognized entry lines (only prose); neither case produces a
failure result. -/
theorem listTodayEntriesCore_c9_empty_ok
    (config : LoggerConfig) (now : JsDate) (fs₁ fs : FS) (content : String)
    (sec : TodaySection)
    (habsent : lookupFS fs₁ (config.journalDir ++ "/" ++ getTodayFilename now) = none)
    (hfs : lookupFS fs (config.journalDir ++ "/" ++ getTodayFilename now) = some content)
    (hfind : findTodaySection content config.todayHeader = .ok sec)
    (hempty : ∀ l ∈ sectionBody sec, parseLogEntry l = none) :
    listTodayEntriesCore config now fs₁ = .ok ⟨[], getTodayFilename now⟩ ∧
    listTodayEntriesCore config now fs = .ok ⟨[], getTodayFilename now⟩ := by
  constructor
  · unfold listTodayEntriesCore
    simp only [habsent]
  · unfold listTodayEntriesCore
    have hentries : getTodayLogEntries content config.todayHeader = .ok [] := by
      unfold getTodayLogEntries
      rw [hfind]
      show Except.ok (sortEntries ((sectionBody sec).filterMap parseLogEntry)) = .ok []
      rw [List.filterMap_eq_nil_iff.2 hempty]
      rfl
    simp only [hfs, hentries]

/-- Witness for C9: an empty store, and a store whose note for 2025-06-07
holds a Today section containing only prose. -/
theorem listTodayEntriesCore_c9_empty_ok_witness :
    listTodayEntriesCore sampleConfig sampleNow [] = .ok ⟨[], getTodayFilename sampleNow⟩ ∧
    listTodayEntriesCore sampleConfig sampleNow
        [("J/2025-06-07.md", "# 2025-06-07\n\n## Today\nprose only\n")] =
      .ok ⟨[], getTodayFilename sampleNow⟩ :=
  listTodayEntriesCore_c9_empty_ok sampleConfig sampleNow []
    [("J/2025-06-07.md", "# 2025-06-07\n\n## Today\nprose only\n")]
    "# 2025-06-07\n\n## Today\nprose only\n"
    ⟨2, 5, contentLines "# 2025-06-07\n\n## Today\nprose only\n"⟩
    rfl rfl rfl (by decide)

/-! ### Validated override times -/

theorem validateTimeFormat_spec {t : String} (h : validateTimeFormat t = true) :
    (∃ a b c, t.data = [a, ':', b, c] ∧ isDigitChar a = true ∧ isDigitChar b = true ∧
      isDigitChar c = true) ∨
    (∃ a₁ a₂ b c, t.data = [a₁, a₂, ':', b, c] ∧ isDigitChar a₁ = true ∧
      isDigitChar a₂ = true ∧ isDigitChar b = true ∧ isDigitChar c = true) := by
  unfold validateTimeFormat at h
  split at h
  · rename_i a b c heq
    simp only [Bool.and_eq_true, decide_eq_true_eq] at h
    refine Or.inl ⟨a, b, c, heq, h.1.1, ?_, h.2⟩
    simp only [isDigitChar, Bool.and_eq_true, decide_eq_true_eq]
    omega
  · rename_i a₁ a₂ b c heq
    simp only [Bool.and_eq_true, Bool.or_eq_true, beq_iff_eq, decide_eq_true_eq] at h
    refine Or.inr ⟨a₁, a₂, b, c, heq, ?_, ?_, ?_, h.2⟩
    · rcases h.1.1 with ⟨ha₁, -⟩ | ⟨ha₁, -⟩
      · rcases ha₁ with rfl | rfl <;> decide
      · subst ha₁; decide
    · rcases h.1.1 with ⟨-, ha₂⟩ | ⟨-, ha₂⟩
      · exact ha₂
      · simp only [isDigitChar, Bool.and_eq_true, decide_eq_true_eq]
        omega
    · simp only [isDigitChar, Bool.and_eq_true, decide_eq_true_eq]
      omega
  · exact Bool.noConfusion h

theorem validateTimeFormat_chars {t : String} (h : validateTimeFormat t = true) :
    ∀ c ∈ t.data, isDigitChar c = true ∨ c = ':' := by
  rcases validateTimeFormat_spec h with ⟨a, b, c, heq, ha, hb, hc⟩ |
    ⟨a₁, a₂, b, c, heq, ha₁, ha₂, hb, hc⟩ <;> rw [heq] <;> intro x hx <;>
    simp only [List.mem_cons, List.not_mem_nil, or_false] at hx
  · rcases hx with rfl | rfl | rfl | rfl
    · exact Or.inl ha
    · exact Or.inr rfl
    · exact Or.inl hb
    · exact Or.inl hc
  · rcases hx with rfl | rfl | rfl | rfl | rfl
    · exact Or.inl ha₁
    · exact Or.inl ha₂
    · exact Or.inr rfl
    · exact Or.inl hb
    · exact Or.inl hc

theorem validateTimeFormat_ne_nil {t : String} (h : validateTimeFormat t = true) :
    t.data ≠ [] := by
  rcases validateTimeFormat_spec h with ⟨a, b, c, heq, -⟩ | ⟨a₁, a₂, b, c, heq, -⟩ <;>
    rw [heq] <;> simp

theorem dropWhile_eq_self_of_none {p : Char → Bool} :
    ∀ {l : List Char}, (∀ c ∈ l, p c = false) → l.dropWhile p = l
  | [], _ => rfl
  | c :: cs, h => by
    simp [List.dropWhile_cons, h c (List.mem_cons_self c cs)]

theorem jsTrim_eq_self {s : String} (h : ∀ c ∈ s.data, jsWs c = false) : jsTrim s = s := by
  unfold jsTrim jsTrimChars
  rw [dropWhile_eq_self_of_none h,
    dropWhile_eq_self_of_none (by intro c hc; exact h c (List.mem_reverse.1 hc)),
    List.reverse_reverse]

theorem validateTimeFormat_not_ws {t : String} (h : validateTimeFormat t = true) :
    ∀ c ∈ t.data, jsWs c = false := by
  intro c hc
  rcases validateTimeFormat_chars h c hc with hd | rfl
  · exact not_jsWs_of_isDigitChar hd
  · decide

theorem lastIndexOfChar_eq_none {c : Char} :
    ∀ {cs : List Char}, (∀ x ∈ cs, x ≠ c) → lastIndexOfChar c cs = none
  | [], _ => rfl
  | x :: xs, h => by
    unfold lastIndexOfChar
    rw [lastIndexOfChar_eq_none fun y hy => h y (List.mem_cons_of_mem x hy)]
    simp [h x (List.mem_cons_self x xs)]

/-- Resolving `@<HH:mm>` with a validated time: empty message, the
formatted time as timestamp, no natural-language involvement. -/
theorem parseMessageWithTime_at_validated (chrono : ChronoOracle) (now : JsDate)
    {t : String} (hv : validateTimeFormat t = true) :
    parseMessageWithTime chrono now ("@" ++ t) =
      ⟨"", some (formatTime t), none, false, false⟩ := by
  have hno_at : lastIndexOfChar '@' t.data = none := by
    apply lastIndexOfChar_eq_none
    intro x hx
    rcases validateTimeFormat_chars hv x hx with hd | rfl
    · exact ne_at_of_isDigitChar hd
    · decide
  have hdata : ("@" ++ t).data = '@' :: t.data := by
    rw [String.data_append]
    rfl
  have hlast : lastIndexOfChar '@' ("@" ++ t).data = some 0 := by
    rw [hdata]
    unfold lastIndexOfChar
    rw [hno_at]
    simp
  have htrim : jsTrim t = t := jsTrim_eq_self (validateTimeFormat_not_ws hv)
  have htne : (t == "") = false := by
    refine beq_eq_false_iff_ne.2 fun e => validateTimeFormat_ne_nil hv ?_
    rw [e]
  unfold parseMessageWithTime
  rw [hlast]
  show (if (jsTrim ⟨("@" ++ t).data.drop (0 + 1)⟩ : String) == "" then _
    else if validateTimeFormat (jsTrim ⟨("@" ++ t).data.drop (0 + 1)⟩) = true then
      (⟨jsTrim ⟨("@" ++ t).data.take 0⟩,
        some (formatTime (jsTrim ⟨("@" ++ t).data.drop (0 + 1)⟩)), none, false, false⟩ :
        ParsedMessage)
    else _) = _
  have hdrop : (⟨("@" ++ t).data.drop (0 + 1)⟩ : String) = t := by
    rw [hdata]
    rfl
  rw [hdrop, htrim, htne]
  show (if validateTimeFormat t = true then
      (⟨jsTrim ⟨("@" ++ t).data.take 0⟩, some (formatTime t), none, false, false⟩ :
        ParsedMessage)
    else _) = _
  rw [if_pos hv]
  have htake : (⟨("@" ++ t).data.take 0⟩ : String) = "" := rfl
  rw [htake]
  rfl

theorem splitOnChar_cons_sep (sep : Char) (cs : List Char) :
    splitOnChar sep (sep :: cs) = [] :: splitOnChar sep cs := by
  simp [splitOnChar]

theorem splitOnChar_cons_ne (sep c : Char) (cs : List Char) (h : c ≠ sep) :
    splitOnChar sep (c :: cs) =
      match splitOnChar sep cs with
      | [] => [[c]]
      | p :: ps => (c :: p) :: ps := by
  simp [splitOnChar, h]

theorem jsParseIntNat_one {x : Char} (hx : isDigitChar x = true) :
    jsParseIntNat ⟨[x]⟩ = x.toNat - 48 := by
  unfold jsParseIntNat digitsToNat
  show ((([x].takeWhile isDigitChar)).foldl (fun acc c => acc * 10 + (c.toNat - 48)) 0) =
    x.toNat - 48
  rw [List.takeWhile_cons]
  simp [hx]

theorem jsParseIntNat_two {x y : Char} (hx : isDigitChar x = true)
    (hy : isDigitChar y = true) :
    jsParseIntNat ⟨[x, y]⟩ = (x.toNat - 48) * 10 + (y.toNat - 48) := by
  unfold jsParseIntNat digitsToNat
  show ((([x, y].takeWhile isDigitChar)).foldl (fun acc c => acc * 10 + (c.toNat - 48)) 0) =
    (x.toNat - 48) * 10 + (y.toNat - 48)
  rw [List.takeWhile_cons]
  simp [hx, List.takeWhile_cons, hy, List.foldl]

/-- The normalized output of `formatTime` on a validated override has the
canonical zero-padded `HH:mm` shape. -/
theorem formatTime_shape {t : String} (hv : validateTimeFormat t = true) :
    timeShapeDigits (formatTime t) = true := by
  rcases validateTimeFormat_spec hv with ⟨a, b, c, heq, ha, hb, hc⟩ |
    ⟨a₁, a₂, b, c, heq, ha₁, ha₂, hb, hc⟩
  · have hbc : splitOnChar ':' [b, c] = [[b, c]] := by
      apply splitOnChar_of_not_mem
      intro hmem
      rcases List.mem_cons.1 hmem with e | hmem
      · exact ne_colon_of_isDigitChar hb e.symm
      rcases List.mem_cons.1 hmem with e | hmem
      · exact ne_colon_of_isDigitChar hc e.symm
      · cases hmem
    have hsplit : splitOnChar ':' t.data = [[a], [b, c]] := by
      rw [heq, splitOnChar_cons_ne ':' a _ (ne_colon_of_isDigitChar ha),
        splitOnChar_cons_sep, hbc]
    unfold formatTime
    rw [hsplit]
    show timeShapeDigits
      (padZero (jsParseIntNat ⟨[a]⟩) 2 ++ ":" ++ padZero (jsParseIntNat ⟨[b, c]⟩) 2) = true
    refine timeShapeDigits_pad ?_ ?_
    · rw [jsParseIntNat_one ha]
      simp only [isDigitChar, Bool.and_eq_true, decide_eq_true_eq] at ha
      omega
    · rw [jsParseIntNat_two hb hc]
      simp only [isDigitChar, Bool.and_eq_true, decide_eq_true_eq] at hb hc
      omega
  · have hbc : splitOnChar ':' [b, c] = [[b, c]] := by
      apply splitOnChar_of_not_mem
      intro hmem
      rcases List.mem_cons.1 hmem with e | hmem
      · exact ne_colon_of_isDigitChar hb e.symm
      rcases List.mem_cons.1 hmem with e | hmem
      · exact ne_colon_of_isDigitChar hc e.symm
      · cases hmem
    have hsplit : splitOnChar ':' t.data = [[a₁, a₂], [b, c]] := by
      rw [heq, splitOnChar_cons_ne ':' a₁ _ (ne_colon_of_isDigitChar ha₁),
        splitOnChar_cons_ne ':' a₂ _ (ne_colon_of_isDigitChar ha₂),
        splitOnChar_cons_sep, hbc]
    unfold formatTime
    rw [hsplit]
    show timeShapeDigits
      (padZero (jsParseIntNat ⟨[a₁, a₂]⟩) 2 ++ ":" ++
        padZero (jsParseIntNat ⟨[b, c]⟩) 2) = true
    refine timeShapeDigits_pad ?_ ?_
    · rw [jsParseIntNat_two ha₁ ha₂]
      simp only [isDigitChar, Bool.and_eq_true, decide_eq_true_eq] at ha₁ ha₂
      omega
    · rw [jsParseIntNat_two hb hc]
      simp only [isDigitChar, Bool.and_eq_true, decide_eq_true_eq] at hb hc
      omega

/-- A rendered entry line starts with `-`, so it is not a `## ` header. -/
theorem isHeaderLine_renderEntryLine (ts msg : String) :
    isHeaderLine (renderEntryLine ts msg) = false := by
  unfold isHeaderLine renderEntryLine
  rw [String.data_append, String.data_append, String.data_append]
  rfl

/-- A rendered entry line contains no newline when neither the timestamp
nor the message does. -/
theorem renderEntryLine_no_newline {ts msg : String} (hts : '\n' ∉ ts.data)
    (hmsg : '\n' ∉ msg.data) : '\n' ∉ (renderEntryLine ts msg).data := by
  unfold renderEntryLine
  rw [String.data_append, String.data_append, String.data_append]
  intro hmem
  rcases List.mem_append.1 hmem with hmem | hmem
  · rcases List.mem_append.1 hmem with hmem | hmem
    · rcases List.mem_append.1 hmem with hmem | hmem
      · exact absurd hmem (by decide)
      · exact hts hmem
    · exact absurd hmem (by decide)
  · exact hmsg hmem

/-- C10: an add-entry request whose input is just the marker and a valid
time reference (`@HH:mm`) succeeds with an empty message: the written line
is `- **HH:mm** ` (trailing space, empty message), that line is not
recognized by the line parser, and a subsequent list operation returns an
empty entry list. -/
theorem addLogEntryCore_c10_time_only (chrono : ChronoOracle) (t : String)
    (hv : validateTimeFormat t = true) :
    (parseMessageWithTime chrono sampleNow ("@" ++ t)).message = "" ∧
    addLogEntryCore ⟨"@" ++ t, none⟩ sampleConfig sampleNow chrono [] =
      (.ok ⟨renderEntryLine (formatTime t) "", 1, true, none⟩,
        [("J/2025-06-07.md",
          joinLines ["# 2025-06-07", "", "## Today",
            renderEntryLine (formatTime t) "", "", ""])]) ∧
    contentLines (joinLines ["# 2025-06-07", "", "## Today",
        renderEntryLine (formatTime t) "", "", ""]) =
      ["# 2025-06-07", "", "## Today", renderEntryLine (formatTime t) "", "", ""] ∧
    parseLogEntry (renderEntryLine (formatTime t) "") = none ∧
    listTodayEntriesCore sampleConfig sampleNow
        [("J/2025-06-07.md",
          joinLines ["# 2025-06-07", "", "## Today",
            renderEntryLine (formatTime t) "", "", ""])] =
      .ok ⟨[], "2025-06-07.md"⟩ := by
  have hparse := parseMessageWithTime_at_validated chrono sampleNow hv
  have hshape := formatTime_shape hv
  have hnl : '\n' ∉ (renderEntryLine (formatTime t) "").data :=
    renderEntryLine_no_newline (timeShapeDigits_no_newline hshape) (by decide)
  have hnone : parseLogEntry (renderEntryLine (formatTime t) "") = none :=
    parseLogEntry_render_empty hshape
  have hcontent : contentLines (joinLines ["# 2025-06-07", "", "## Today",
      renderEntryLine (formatTime t) "", "", ""]) =
      ["# 2025-06-07", "", "## Today", renderEntryLine (formatTime t) "", "", ""] := by
    apply contentLines_joinLines _ (by simp)
    intro l hl
    simp only [List.mem_cons, List.not_mem_nil, or_false] at hl
    rcases hl with rfl | rfl | rfl | rfl | rfl | rfl
    · decide
    · decide
    · decide
    · exact hnl
    · decide
    · decide
  have hidx : findHeaderIdx "## Today" ["# 2025-06-07", "", "## Today",
      renderEntryLine (formatTime t) "", "", ""] = some 2 := by
    unfold findHeaderIdx
    exact scanIdx_of_decomp _ ["# 2025-06-07", ""] "## Today" _
      (by intro l hl; rcases List.mem_cons.1 hl with rfl | hl
          · decide
          · rcases List.mem_cons.1 hl with rfl | hl
            · decide
            · cases hl)
      (by decide)
  have hnext : findNextHeaderIdx [renderEntryLine (formatTime t) "", "", ""] = none := by
    unfold findNextHeaderIdx
    apply (scanIdx_eq_none_iff _ _).2
    intro l hl
    rcases List.mem_cons.1 hl with rfl | hl
    · exact isHeaderLine_renderEntryLine _ _
    rcases List.mem_cons.1 hl with rfl | hl
    · decide
    rcases List.mem_cons.1 hl with rfl | hl
    · decide
    · cases hl
  have hfind : findTodaySection (joinLines ["# 2025-06-07", "", "## Today",
      renderEntryLine (formatTime t) "", "", ""]) "## Today" =
      .ok ⟨2, 6, ["# 2025-06-07", "", "## Today",
        renderEntryLine (formatTime t) "", "", ""]⟩ := by
    unfold findTodaySection
    simp only [hcontent, hidx, List.drop_succ_cons, List.drop_zero, hnext]
    rfl
  have hentries : getTodayLogEntries (joinLines ["# 2025-06-07", "", "## Today",
      renderEntryLine (formatTime t) "", "", ""]) "## Today" = .ok [] := by
    unfold getTodayLogEntries
    rw [hfind]
    show Except.ok (sortEntries (((["# 2025-06-07", "", "## Today",
      renderEntryLine (formatTime t) "", "", ""].drop 3).take 3).filterMap
        parseLogEntry)) = .ok []
    have : (((["# 2025-06-07", "", "## Today",
        renderEntryLine (formatTime t) "", "", ""].drop 3).take 3).filterMap
        parseLogEntry) = [] := by
      apply List.filterMap_eq_nil_iff.2
      intro l hl
      simp only [List.drop_succ_cons, List.drop_zero, List.take_succ_cons, List.take_zero,
        List.mem_cons, List.not_mem_nil, or_false] at hl
      rcases hl with rfl | rfl | rfl
      · exact hnone
      · rfl
      · rfl
    rw [this]
    rfl
  have hadd : addLogEntryCore ⟨"@" ++ t, none⟩ sampleConfig sampleNow chrono [] =
      (.ok ⟨renderEntryLine (formatTime t) "", 1, true, none⟩,
        [("J/2025-06-07.md",
          joinLines ["# 2025-06-07", "", "## Today",
            renderEntryLine (formatTime t) "", "", ""])]) := by
    unfold addLogEntryCore
    simp only []
    rw [hparse]
    rfl
  have hlist : listTodayEntriesCore sampleConfig sampleNow
      [("J/2025-06-07.md",
        joinLines ["# 2025-06-07", "", "## Today",
          renderEntryLine (formatTime t) "", "", ""])] = .ok ⟨[], "2025-06-07.md"⟩ := by
    unfold listTodayEntriesCore
    simp only []
    rw [show (lookupFS [("J/2025-06-07.md",
        joinLines ["# 2025-06-07", "", "## Today",
          renderEntryLine (formatTime t) "", "", ""])]
        (sampleConfig.journalDir ++ "/" ++ getTodayFilename sampleNow)) =
      some (joinLines ["# 2025-06-07", "", "## Today",
        renderEntryLine (formatTime t) "", "", ""]) from rfl]
    simp only []
    rw [show sampleConfig.todayHeader = "## Today" from rfl]
    rw [hentries]
    rfl
  refine ⟨by rw [hparse], hadd, hcontent, hnone, hlist⟩

/-- Witness for C10 at the reference `@14:30`. -/
theorem addLogEntryCore_c10_time_only_witness :
    validateTimeFormat "14:30" = true ∧
    (parseMessageWithTime noChrono sampleNow ("@" ++ "14:30")).message = "" ∧
    parseLogEntry (renderEntryLine (formatTime "14:30") "") = none ∧
    listTodayEntriesCore sampleConfig sampleNow
        [("J/2025-06-07.md",
          joinLines ["# 2025-06-07", "", "## Today",
            renderEntryLine (formatTime "14:30") "", "", ""])] =
      .ok ⟨[], "2025-06-07.md"⟩ := by
  have h := addLogEntryCore_c10_time_only noChrono "14:30" (by decide)
  exact ⟨by decide, h.1, h.2.2.2.1, h.2.2.2.2⟩

/-! ### Trimming at the ends, template structure -/

theorem dropWhile_eq_self_of_head {p : Char → Bool} {l : List Char}
    (h : ∀ c, l.head? = some c → p c = false) : l.dropWhile p = l := by
  cases l with
  | nil => rfl
  | cons c cs => simp [List.dropWhile_cons, h c rfl]

theorem jsTrim_eq_self_of_ends {s : String}
    (h1 : ∀ c, s.data.head? = some c → jsWs c = false)
    (h2 : ∀ c, s.data.getLast? = some c → jsWs c = false) : jsTrim s = s := by
  unfold jsTrim jsTrimChars
  rw [dropWhile_eq_self_of_head h1]
  rw [dropWhile_eq_self_of_head (by
    intro c hc
    rw [List.head?_reverse] at hc
    exact h2 c hc)]
  rw [List.reverse_reverse]

theorem getTodayDateString_chars (now : JsDate) :
    ∀ c ∈ (getTodayDateString now).data, isDigitChar c = true ∨ c = '-' := by
  unfold getTodayDateString
  intro c hc
  rw [String.data_append, String.data_append, String.data_append,
    String.data_append] at hc
  rcases List.mem_append.1 hc with hc | hc
  · rcases List.mem_append.1 hc with hc | hc
    · rcases List.mem_append.1 hc with hc | hc
      · rcases List.mem_append.1 hc with hc | hc
        · exact Or.inl (toString_nat_digits now.year c hc)
        · exact Or.inr (by simpa using hc)
      · exact Or.inl (padZero_digits now.month 2 c hc)
    · exact Or.inr (by simpa using hc)
  · exact Or.inl (padZero_digits now.day 2 c hc)

theorem getTodayDateString_no_newline (now : JsDate) :
    '\n' ∉ (getTodayDateString now).data := by
  intro hmem
  rcases getTodayDateString_chars now '\n' hmem with hd | he
  · exact absurd hd (by decide)
  · exact absurd he (by decide)

/-- The fresh-note template, as an explicit line list. -/
theorem createDailyNoteTemplate_eq_joinLines (now : JsDate) :
    createDailyNoteTemplate now =
      joinLines ["# " ++ getTodayDateString now, "", "## Today", "", ""] := by
  show ("# " ++ getTodayDateString now ++ "\n\n## Today\n\n" : String) = _
  have : (joinLines ["# " ++ getTodayDateString now, "", "## Today", "", ""]).data =
      ("# " ++ getTodayDateString now ++ "\n\n## Today\n\n").data := by
    show ("# " ++ getTodayDateString now).data ++ '\n' :: ([] ++ '\n' ::
        ("## Today".data ++ '\n' :: ([] ++ '\n' :: []))) = _
    rw [String.data_append, String.data_append, String.data_append]
    rfl
  cases hj : joinLines ["# " ++ getTodayDateString now, "", "## Today", "", ""] with
  | mk data =>
    rw [hj] at this
    simp only at this
    rw [this]

theorem contentLines_template (now : JsDate) :
    contentLines (createDailyNoteTemplate now) =
      ["# " ++ getTodayDateString now, "", "## Today", "", ""] := by
  rw [createDailyNoteTemplate_eq_joinLines]
  apply contentLines_joinLines _ (by simp)
  intro l hl
  simp only [List.mem_cons, List.not_mem_nil, or_false] at hl
  rcases hl with rfl | rfl | rfl | rfl | rfl
  · rw [String.data_append]
    intro hmem
    rcases List.mem_append.1 hmem with hmem | hmem
    · exact absurd hmem (by decide)
    · exact getTodayDateString_no_newline now hmem
  · decide
  · decide
  · decide
  · decide


theorem findTodaySection_template (now : JsDate) (hday : now.day ≤ 99) :
    findTodaySection (createDailyNoteTemplate now) "## Today" =
      .ok ⟨2, 5, ["# " ++ getTodayDateString now, "", "## Today", "", ""]⟩ := by
  have hl0 : (jsTrim ("# " ++ getTodayDateString now) == "## Today") = false := by
    rcases twoDigits_spec (padZero_twoDigits now.day hday) with ⟨a, b, hab, ha, hb⟩
    have hsplitdata : ("# " ++ getTodayDateString now).data =
        ("# ".data ++ (toString now.year ++ "-" ++ padZero now.month 2 ++ "-").data) ++
          (padZero now.day 2).data := by
      unfold getTodayDateString
      rw [String.data_append, String.data_append, String.data_append, String.data_append,
        String.data_append]
      simp [List.append_assoc]
    have hlast : ∀ c, ("# " ++ getTodayDateString now).data.getLast? = some c →
        jsWs c = false := by
      intro c hc
      rw [hsplitdata, hab] at hc
      rw [List.getLast?_append_of_ne_nil _ (by simp)] at hc
      have hb' : ([a, b] : List Char).getLast? = some b := rfl
      rw [hb'] at hc
      cases hc
      exact not_jsWs_of_isDigitChar hb
    have htrim : jsTrim ("# " ++ getTodayDateString now) = "# " ++ getTodayDateString now :=
      jsTrim_eq_self_of_ends
        (by
          intro c hc
          rw [String.data_append] at hc
          cases hc
          decide)
        hlast
    rw [htrim]
    apply beq_eq_false_iff_ne.2
    intro he
    have hd : ("# " ++ getTodayDateString now).data = "## Today".data :=
      congrArg String.data he
    rw [String.data_append] at hd
    simp only [List.cons_append, List.nil_append] at hd
    injection hd with h1 h2
    injection h2 with h3 h4
    exact absurd h3 (by decide)
  have hidx : findHeaderIdx "## Today"
      ["# " ++ getTodayDateString now, "", "## Today", "", ""] = some 2 := by
    unfold findHeaderIdx
    exact scanIdx_of_decomp _ ["# " ++ getTodayDateString now, ""] "## Today" ["", ""]
      (by
        intro l hl
        rcases List.mem_cons.1 hl with rfl | hl
        · exact hl0
        rcases List.mem_cons.1 hl with rfl | hl
        · decide
        · cases hl)
      (by decide)
  unfold findTodaySection
  simp only [contentLines_template, hidx, List.drop_succ_cons, List.drop_zero]
  rfl

/-! ### Characters of resolved timestamps and messages -/

theorem padPair_chars (a b : Nat) :
    ∀ c ∈ (padZero a 2 ++ ":" ++ padZero b 2).data, isDigitChar c = true ∨ c = ':' := by
  intro c hc
  rw [String.data_append, String.data_append] at hc
  rcases List.mem_append.1 hc with hc | hc
  · rcases List.mem_append.1 hc with hc | hc
    · exact Or.inl (padZero_digits a 2 c hc)
    · exact Or.inr (by simpa using hc)
  · exact Or.inl (padZero_digits b 2 c hc)

theorem padPair_no_newline (a b : Nat) :
    '\n' ∉ (padZero a 2 ++ ":" ++ padZero b 2).data := by
  intro hmem
  rcases padPair_chars a b '\n' hmem with hd | he
  · exact absurd hd (by decide)
  · exact absurd he (by decide)

theorem formatTime_eq_padPair (t : String) :
    ∃ a b, formatTime t = padZero a 2 ++ ":" ++ padZero b 2 :=
  ⟨_, _, rfl⟩

theorem getCurrentTime_eq_padPair (now : JsDate) :
    ∃ a b, getCurrentTime now = padZero a 2 ++ ":" ++ padZero b 2 :=
  ⟨_, _, rfl⟩

theorem parseMessage_timestamp_padPair {chrono : ChronoOracle} {now : JsDate}
    {input ts : String}
    (h : (parseMessageWithTime chrono now input).timestamp = some ts) :
    ∃ a b, ts = padZero a 2 ++ ":" ++ padZero b 2 := by
  unfold parseMessageWithTime at h
  cases hlast : lastIndexOfChar '@' input.data with
  | none =>
    rw [hlast] at h
    exact Option.noConfusion h
  | some i =>
    rw [hlast] at h
    simp only [] at h
    split at h
    · exact Option.noConfusion h
    · split at h
      · simp only [Option.some.injEq] at h
        subst h
        exact formatTime_eq_padPair _
      · cases hchrono : chrono (jsTrim ⟨input.data.drop (i + 1)⟩) with
        | none =>
          rw [hchrono] at h
          exact Option.noConfusion h
        | some dt =>
          rw [hchrono] at h
          split at h
          · split at h
            · exact Option.noConfusion h
            · simp only [Option.some.injEq] at h
              subst h
              exact ⟨_, _, rfl⟩
          · exact Option.noConfusion h

theorem mem_jsTrimChars {c : Char} {l : List Char} (h : c ∈ jsTrimChars l) : c ∈ l := by
  unfold jsTrimChars at h
  rw [List.mem_reverse] at h
  have h1 := (List.dropWhile_sublist (l := (l.dropWhile jsWs).reverse) jsWs).mem h
  rw [List.mem_reverse] at h1
  exact (List.dropWhile_sublist jsWs).mem h1

theorem parseMessage_message_mem {chrono : ChronoOracle} {now : JsDate} {input : String} :
    ∀ c ∈ (parseMessageWithTime chrono now input).message.data, c ∈ input.data := by
  intro c hc
  unfold parseMessageWithTime at hc
  cases hlast : lastIndexOfChar '@' input.data with
  | none =>
    rw [hlast] at hc
    exact mem_jsTrimChars hc
  | some i =>
    rw [hlast] at hc
    simp only [] at hc
    have htake : ∀ c, c ∈ (jsTrim ⟨input.data.take i⟩).data → c ∈ input.data := by
      intro x hx
      exact List.mem_of_mem_take (mem_jsTrimChars hx)
    split at hc
    · exact mem_jsTrimChars hc
    · split at hc
      · exact htake c hc
      · cases hchrono : chrono (jsTrim ⟨input.data.drop (i + 1)⟩) with
        | none =>
          rw [hchrono] at hc
          exact mem_jsTrimChars hc
        | some dt =>
          rw [hchrono] at hc
          split at hc
          · split at hc
            · exact htake c hc
            · exact htake c hc
          · exact mem_jsTrimChars hc

/-- Every timestamp the add operation resolves (custom override, marker
time, or current time) is a padded pair `padZero a 2 ++ ":" ++ padZero b 2`. -/
theorem resolved_timestamp_padPair {command : AddEntryCommand} {chrono : ChronoOracle}
    {now : JsDate} {ts : String}
    (hts : (∃ t, command.customTime = some t ∧ validateTimeFormat t = true ∧
        ts = formatTime t) ∨
      (command.customTime = none ∧
        (parseMessageWithTime chrono now command.message).timestamp = some ts) ∨
      (command.customTime = none ∧
        (parseMessageWithTime chrono now command.message).timestamp = none ∧
        ts = getCurrentTime now)) :
    ∃ a b, ts = padZero a 2 ++ ":" ++ padZero b 2 := by
  rcases hts with ⟨t, -, -, rfl⟩ | ⟨-, hsome⟩ | ⟨-, -, rfl⟩
  · exact formatTime_eq_padPair t
  · exact parseMessage_timestamp_padPair hsome
  · exact getCurrentTime_eq_padPair now

/-- C6 (counterexample): the claim asserts the fresh-note behaviour for
every configured header text.  The template hardcodes the literal
`## Today`, so with the configured header `## Log` the add to a missing
note fails with `HEADER_NOT_FOUND` and no note is created at all. -/
theorem addLogEntryCore_c6_header_counterexample :
    createDailyNoteTemplate sampleNow = "# 2025-06-07\n\n## Today\n\n" ∧
    addLogEntryCore ⟨"hello", none⟩ ⟨"J", "## Log"⟩ sampleNow noChrono [] =
      (.error .HEADER_NOT_FOUND, []) :=
  ⟨rfl, rfl⟩

/-- C6 (amended): when the configured header text is the literal
`## Today` that the template hardcodes, adding an entry with no note
present creates the note from the template (top-level date header, blank
line, `## Today`, trailing blank), reports `isNewFile`, and the persisted
note has a well-formed Today section containing exactly the one new
recognized entry. -/
theorem addLogEntryCore_c6_fresh_note (command : AddEntryCommand) (config : LoggerConfig)
    (now : JsDate) (chrono : ChronoOracle) (fs : FS) (d : AddResultData) (fs' : FS)
    (e : LogEntry)
    (hheader : config.todayHeader = "## Today")
    (hday : now.day ≤ 99)
    (habsent : lookupFS fs (config.journalDir ++ "/" ++ getTodayFilename now) = none)
    (hmsg : '\n' ∉ command.message.data)
    (hrun : addLogEntryCore command config now chrono fs = (.ok d, fs'))
    (hrec : parseLogEntry d.entryAdded = some e) :
    d.isNewFile = true ∧
    createDailyNoteTemplate now = "# " ++ getTodayDateString now ++ "\n\n## Today\n\n" ∧
    ∃ c' sec',
      lookupFS fs' (config.journalDir ++ "/" ++ getTodayFilename now) = some c' ∧
      findTodaySection c' config.todayHeader = .ok sec' ∧
      sec'.startIndex < sec'.endIndex ∧
      sectionEntriesInOrder c' config.todayHeader = [e] := by
  rcases addLogEntryCore_ok_spec hrun with ⟨ts, sec, hts, hfind, hadded, hnew, hfs'⟩
  rcases resolved_timestamp_padPair hts with ⟨a, b, hab⟩
  have hts_nl : '\n' ∉ ts.data := by
    rw [hab]
    exact padPair_no_newline a b
  have hmsg_nl : '\n' ∉ (parseMessageWithTime chrono now command.message).message.data :=
    fun hm => hmsg (parseMessage_message_mem _ hm)
  have hraw_nl : '\n' ∉ d.entryAdded.data := by
    rw [hadded]
    exact renderEntryLine_no_newline hts_nl hmsg_nl
  have hraw_hdr : isHeaderLine d.entryAdded = false := by
    rw [hadded]
    exact isHeaderLine_renderEntryLine _ _
  have hread : readOrTemplate fs (config.journalDir ++ "/" ++ getTodayFilename now) now =
      createDailyNoteTemplate now := by
    unfold readOrTemplate
    rw [habsent]
    rfl
  rw [hread, hheader, findTodaySection_template now hday] at hfind
  injection hfind with hS
  subst hS
  refine ⟨by rw [hnew, habsent]; rfl, by rw [createDailyNoteTemplate_eq_joinLines]; rfl, ?_⟩
  rcases rebuild_spec (findTodaySection_template now hday) [d.entryAdded, "", ""]
    (by
      intro l hl
      rcases List.mem_cons.1 hl with rfl | hl
      · exact hraw_hdr
      rcases List.mem_cons.1 hl with rfl | hl
      · decide
      rcases List.mem_cons.1 hl with rfl | hl
      · decide
      · cases hl)
    (by
      intro l hl
      rcases List.mem_cons.1 hl with rfl | hl
      · exact hraw_nl
      rcases List.mem_cons.1 hl with rfl | hl
      · decide
      rcases List.mem_cons.1 hl with rfl | hl
      · decide
      · cases hl) with ⟨hrb1, hrb2⟩
  try simp only [] at hfs'
  try simp only [] at hrb1
  try simp only [] at hrb2
  have hmm : (mergedEntries ⟨2, 5, ["# " ++ getTodayDateString now, "", "## Today", "", ""]⟩
      ⟨ts, (parseMessageWithTime chrono now command.message).message,
        d.entryAdded⟩).map LogEntry.raw = [d.entryAdded] := rfl
  have hkk : ((sectionBody ⟨2, 5,
      ["# " ++ getTodayDateString now, "", "## Today", "", ""]⟩).filter
      fun l => (parseLogEntry l).isNone) = ["", ""] := rfl
  rw [hmm, hkk] at hfs'
  have hm2 : ([d.entryAdded] ++ (["", ""] ++
      (TodaySection.lines ⟨2, 5,
        ["# " ++ getTodayDateString now, "", "## Today", "", ""]⟩).drop 5)) =
      [d.entryAdded, "", ""] := rfl
  rw [hm2] at hfs'
  have hconv : (TodaySection.lines ⟨2, 5,
        ["# " ++ getTodayDateString now, "", "## Today", "", ""]⟩).take (2 + 1) ++
      [d.entryAdded, "", ""] =
      (TodaySection.lines ⟨2, 5,
        ["# " ++ getTodayDateString now, "", "## Today", "", ""]⟩).take (2 + 1) ++
      [d.entryAdded, "", ""] ++
      (TodaySection.lines ⟨2, 5,
        ["# " ++ getTodayDateString now, "", "## Today", "", ""]⟩).drop 5 := by
    rw [show (TodaySection.lines ⟨2, 5,
      ["# " ++ getTodayDateString now, "", "## Today", "", ""]⟩).drop 5 =
      ([] : List String) from rfl, List.append_nil]
  rw [hconv] at hfs'
  rw [hheader]
  refine ⟨_, _, ?_, hrb1, ?_, ?_⟩
  · rw [hfs']
    exact lookupFS_writeFS_same _ _ _
  · show (2 : Nat) < 2 + 1 + 3
    omega
  · unfold sectionEntriesInOrder
    rw [hrb1]
    simp only []
    rw [hrb2]
    rw [List.filterMap_cons, hrec]
    rfl

/-- Witness for the amended C6: adding `hello` at 13:30 to an empty store
creates the templated note with exactly that one entry. -/
theorem addLogEntryCore_c6_fresh_note_witness :
    (⟨"- **13:30** hello", 1, true, none⟩ : AddResultData).isNewFile = true ∧
    createDailyNoteTemplate sampleNow =
      "# " ++ getTodayDateString sampleNow ++ "\n\n## Today\n\n" ∧
    ∃ c' sec',
      lookupFS [("J/2025-06-07.md",
          "# 2025-06-07\n\n## Today\n- **13:30** hello\n\n")]
        (sampleConfig.journalDir ++ "/" ++ getTodayFilename sampleNow) = some c' ∧
      findTodaySection c' sampleConfig.todayHeader = .ok sec' ∧
      sec'.startIndex < sec'.endIndex ∧
      sectionEntriesInOrder c' sampleConfig.todayHeader =
        [⟨"13:30", "hello", "- **13:30** hello"⟩] :=
  addLogEntryCore_c6_fresh_note ⟨"hello", none⟩ sampleConfig sampleNow noChrono []
    ⟨"- **13:30** hello", 1, true, none⟩
    [("J/2025-06-07.md", "# 2025-06-07\n\n## Today\n- **13:30** hello\n\n")]
    ⟨"13:30", "hello", "- **13:30** hello"⟩
    rfl (by decide) rfl (by decide) rfl rfl

/-! ### The persisted section body of an add operation -/

theorem mem_mergedEntries {sec₀ : TodaySection} {newE x : LogEntry}
    (h : x ∈ mergedEntries sec₀ newE) :
    (∃ bl ∈ sectionBody sec₀, parseLogEntry bl = some x) ∨ x = newE := by
  unfold mergedEntries at h
  rw [mem_sortEntries] at h
  rcases List.mem_append.1 h with h | h
  · rw [mem_sortEntries] at h
    rcases List.mem_filterMap.1 h with ⟨bl, hbl, hparse⟩
    exact Or.inl ⟨bl, hbl, hparse⟩
  · rcases List.mem_singleton.1 h
    exact Or.inr rfl

/-- A successful add writes exactly one note: its section holds the
rendered lines of the merged, sorted entries first, then the non-entry
lines of the original section, in order. -/
theorem addLogEntryCore_persisted_body
    {command : AddEntryCommand} {config : LoggerConfig} {now : JsDate}
    {chrono : ChronoOracle} {fs : FS} {d : AddResultData} {fs' : FS}
    (hmsg : '\n' ∉ command.message.data)
    (hrun : addLogEntryCore command config now chrono fs = (.ok d, fs')) :
    ∃ (ts : String) (sec₀ : TodaySection),
      ((∃ t, command.customTime = some t ∧ validateTimeFormat t = true ∧
          ts = formatTime t) ∨
        (command.customTime = none ∧
          (parseMessageWithTime chrono now command.message).timestamp = some ts) ∨
        (command.customTime = none ∧
          (parseMessageWithTime chrono now command.message).timestamp = none ∧
          ts = getCurrentTime now)) ∧
      findTodaySection (readOrTemplate fs (config.journalDir ++ "/" ++ getTodayFilename now)
        now) config.todayHeader = .ok sec₀ ∧
      d.entryAdded = renderEntryLine ts
        (parseMessageWithTime chrono now command.message).message ∧
      ∃ c' sec',
        lookupFS fs' (config.journalDir ++ "/" ++ getTodayFilename now) = some c' ∧
        findTodaySection c' config.todayHeader = .ok sec' ∧
        sectionBody sec' =
          (mergedEntries sec₀ ⟨ts,
            (parseMessageWithTime chrono now command.message).message,
            d.entryAdded⟩).map LogEntry.raw ++
          (sectionBody sec₀).filter (fun l => (parseLogEntry l).isNone) := by
  rcases addLogEntryCore_ok_spec hrun with ⟨ts, sec₀, hts, hfind, hadded, -, hfs'⟩
  rcases resolved_timestamp_padPair hts with ⟨a, b, hab⟩
  have hts_nl : '\n' ∉ ts.data := by
    rw [hab]
    exact padPair_no_newline a b
  have hmsg_nl : '\n' ∉ (parseMessageWithTime chrono now command.message).message.data :=
    fun hm => hmsg (parseMessage_message_mem _ hm)
  have hraw_nl : '\n' ∉ d.entryAdded.data := by
    rw [hadded]
    exact renderEntryLine_no_newline hts_nl hmsg_nl
  have hraw_hdr : isHeaderLine d.entryAdded = false := by
    rw [hadded]
    exact isHeaderLine_renderEntryLine _ _
  have hbodyprops := sectionBody_props hfind
  have hA_hdr : ∀ l ∈ (mergedEntries sec₀ ⟨ts,
      (parseMessageWithTime chrono now command.message).message,
      d.entryAdded⟩).map LogEntry.raw ++
      (sectionBody sec₀).filter (fun l => (parseLogEntry l).isNone),
      isHeaderLine l = false := by
    intro l hl
    rcases List.mem_append.1 hl with hl | hl
    · rcases List.mem_map.1 hl with ⟨x, hx, rfl⟩
      rcases mem_mergedEntries hx with ⟨bl, hbl, hparse⟩ | rfl
      · rw [parseLogEntry_raw hparse]
        exact hbodyprops.1 bl hbl
      · exact hraw_hdr
    · exact hbodyprops.1 l (List.mem_of_mem_filter hl)
  have hA_nl : ∀ l ∈ (mergedEntries sec₀ ⟨ts,
      (parseMessageWithTime chrono now command.message).message,
      d.entryAdded⟩).map LogEntry.raw ++
      (sectionBody sec₀).filter (fun l => (parseLogEntry l).isNone),
      '\n' ∉ l.data := by
    intro l hl
    rcases List.mem_append.1 hl with hl | hl
    · rcases List.mem_map.1 hl with ⟨x, hx, rfl⟩
      rcases mem_mergedEntries hx with ⟨bl, hbl, hparse⟩ | rfl
      · rw [parseLogEntry_raw hparse]
        exact hbodyprops.2.1 bl hbl
      · exact hraw_nl
    · exact hbodyprops.2.1 l (List.mem_of_mem_filter hl)
  rcases rebuild_spec hfind _ hA_hdr hA_nl with ⟨hrb1, hrb2⟩
  have hargs : sec₀.lines.take (sec₀.startIndex + 1) ++
      ((mergedEntries sec₀ ⟨ts,
        (parseMessageWithTime chrono now command.message).message,
        d.entryAdded⟩).map LogEntry.raw ++
      (((sectionBody sec₀).filter fun l => (parseLogEntry l).isNone) ++
        sec₀.lines.drop sec₀.endIndex)) =
      sec₀.lines.take (sec₀.startIndex + 1) ++
      ((mergedEntries sec₀ ⟨ts,
        (parseMessageWithTime chrono now command.message).message,
        d.entryAdded⟩).map LogEntry.raw ++
      ((sectionBody sec₀).filter fun l => (parseLogEntry l).isNone)) ++
      sec₀.lines.drop sec₀.endIndex := by
    simp [List.append_assoc]
  rw [hargs] at hfs'
  refine ⟨ts, sec₀, hts, hfind, hadded, _, _, ?_, hrb1, hrb2⟩
  rw [hfs']
  exact lookupFS_writeFS_same _ _ _

/-! ## C7: placement of displaced non-entry lines -/

/-- C7 (counterexample): adding `x` at `11:00` to a note whose section
interleaves `prose` between two entries yields a section whose body is the
three sorted entry lines FOLLOWED by the displaced stray lines — the line
immediately after the header is a recognized entry, not the displaced
prose, contradicting the claim that strays land at the top of the section
with the sorted entries after them. -/
theorem addLogEntryCore_c7_strays_not_hoisted :
    (addLogEntryCore ⟨"x", some "11:00"⟩ sampleConfig sampleNow noChrono
        [("J/2025-06-07.md",
          "# d\n\n## Today\n- **10:00** a\nprose\n- **09:00** b\n")]).2 =
      [("J/2025-06-07.md",
        "# d\n\n## Today\n- **09:00** b\n- **10:00** a\n- **11:00** x\nprose\n"),
       ("J/2025-06-07.md",
        "# d\n\n## Today\n- **10:00** a\nprose\n- **09:00** b\n")] ∧
    findTodaySection
        "# d\n\n## Today\n- **09:00** b\n- **10:00** a\n- **11:00** x\nprose\n"
        "## Today" =
      .ok ⟨2, 8, ["# d", "", "## Today", "- **09:00** b", "- **10:00** a",
        "- **11:00** x", "prose", ""]⟩ ∧
    sectionBody ⟨2, 8, ["# d", "", "## Today", "- **09:00** b", "- **10:00** a",
        "- **11:00** x", "prose", ""]⟩ =
      ["- **09:00** b", "- **10:00** a", "- **11:00** x", "prose", ""] ∧
    (parseLogEntry "- **09:00** b").isSome = true ∧
    (parseLogEntry "prose").isNone = true :=
  ⟨rfl, rfl, rfl, rfl, rfl⟩

/-- C7 (amended): for every successful add whose message has no line
terminator and whose rendered line is itself a recognized entry, the
persisted section's body consists of all its recognized entry lines FIRST,
immediately followed by the displaced non-entry lines, and those displaced
lines are exactly the non-entry lines of the original section in their
original relative order (the opposite placement to the claimed
strays-on-top layout). -/
theorem addLogEntryCore_c7_amended
    {command : AddEntryCommand} {config : LoggerConfig} {now : JsDate}
    {chrono : ChronoOracle} {fs : FS} {d : AddResultData} {fs' : FS}
    (hmsg : '\n' ∉ command.message.data)
    (hrun : addLogEntryCore command config now chrono fs = (.ok d, fs'))
    (hrec : (parseLogEntry d.entryAdded).isSome = true) :
    ∃ sec₀ c' sec',
      findTodaySection (readOrTemplate fs
          (config.journalDir ++ "/" ++ getTodayFilename now) now)
        config.todayHeader = .ok sec₀ ∧
      lookupFS fs' (config.journalDir ++ "/" ++ getTodayFilename now) = some c' ∧
      findTodaySection c' config.todayHeader = .ok sec' ∧
      sectionBody sec' =
        (sectionBody sec').filter (fun l => (parseLogEntry l).isSome) ++
          (sectionBody sec').filter (fun l => (parseLogEntry l).isNone) ∧
      (sectionBody sec').filter (fun l => (parseLogEntry l).isNone) =
        (sectionBody sec₀).filter (fun l => (parseLogEntry l).isNone) := by
  rcases addLogEntryCore_persisted_body hmsg hrun with
    ⟨ts, sec₀, -, hfind, hadded, c', sec', hlook, hfind', hbody⟩
  have hA : ∀ l ∈ (mergedEntries sec₀ ⟨ts,
      (parseMessageWithTime chrono now command.message).message,
      d.entryAdded⟩).map LogEntry.raw, (parseLogEntry l).isSome = true := by
    intro l hl
    rcases List.mem_map.1 hl with ⟨x, hx, rfl⟩
    rcases mem_mergedEntries hx with ⟨bl, hbl, hparse⟩ | rfl
    · rw [parseLogEntry_raw hparse, hparse]
      rfl
    · exact hrec
  have hK : ∀ l ∈ (sectionBody sec₀).filter (fun l => (parseLogEntry l).isNone),
      (parseLogEntry l).isNone = true := fun l hl => (List.mem_filter.1 hl).2
  have hfilterS : (sectionBody sec').filter (fun l => (parseLogEntry l).isSome) =
      (mergedEntries sec₀ ⟨ts,
        (parseMessageWithTime chrono now command.message).message,
        d.entryAdded⟩).map LogEntry.raw := by
    rw [hbody, List.filter_append, List.filter_eq_self.mpr hA,
      List.filter_eq_nil_iff.mpr ?_, List.append_nil]
    intro l hl hcontra
    have := hK l hl
    cases hp : parseLogEntry l
    · rw [hp] at hcontra
      exact Bool.noConfusion hcontra
    · rw [hp] at this
      exact Bool.noConfusion this
  have hfilterN : (sectionBody sec').filter (fun l => (parseLogEntry l).isNone) =
      (sectionBody sec₀).filter (fun l => (parseLogEntry l).isNone) := by
    rw [hbody, List.filter_append, List.filter_eq_nil_iff.mpr ?_,
      List.nil_append, List.filter_eq_self.mpr hK]
    intro l hl hcontra
    have := hA l hl
    cases hp : parseLogEntry l
    · rw [hp] at this
      exact Bool.noConfusion this
    · rw [hp] at hcontra
      exact Bool.noConfusion hcontra
  exact ⟨sec₀, c', sec', hfind, hlook, hfind', by rw [hfilterS, hfilterN, hbody], hfilterN⟩

/-- C7 witness: concrete instance — adding `y` at `12:00` to a note whose
section has a prose line before its single entry. -/
theorem addLogEntryCore_c7_amended_witness :
    '\n' ∉ (AddEntryCommand.mk "y" (some "12:00")).message.data ∧
    addLogEntryCore ⟨"y", some "12:00"⟩ sampleConfig sampleNow noChrono
        [("J/2025-06-07.md", "# d\n\n## Today\nnote to self\n- **08:00** q\n")] =
      (.ok ⟨"- **12:00** y", 2, false, none⟩,
        [("J/2025-06-07.md",
          "# d\n\n## Today\n- **08:00** q\n- **12:00** y\nnote to self\n"),
         ("J/2025-06-07.md", "# d\n\n## Today\nnote to self\n- **08:00** q\n")]) ∧
    (parseLogEntry (AddResultData.mk "- **12:00** y" 2 false none).entryAdded).isSome
      = true ∧
    (∃ sec₀ c' sec',
      findTodaySection (readOrTemplate
          [("J/2025-06-07.md", "# d\n\n## Today\nnote to self\n- **08:00** q\n")]
          (sampleConfig.journalDir ++ "/" ++ getTodayFilename sampleNow) sampleNow)
        sampleConfig.todayHeader = .ok sec₀ ∧
      lookupFS
        [("J/2025-06-07.md",
          "# d\n\n## Today\n- **08:00** q\n- **12:00** y\nnote to self\n"),
         ("J/2025-06-07.md", "# d\n\n## Today\nnote to self\n- **08:00** q\n")]
        (sampleConfig.journalDir ++ "/" ++ getTodayFilename sampleNow) = some c' ∧
      findTodaySection c' sampleConfig.todayHeader = .ok sec' ∧
      sectionBody sec' =
        (sectionBody sec').filter (fun l => (parseLogEntry l).isSome) ++
          (sectionBody sec').filter (fun l => (parseLogEntry l).isNone) ∧
      (sectionBody sec').filter (fun l => (parseLogEntry l).isNone) =
        (sectionBody sec₀).filter (fun l => (parseLogEntry l).isNone)) :=
  ⟨by decide, rfl, rfl,
    @addLogEntryCore_c7_amended ⟨"y", some "12:00"⟩ sampleConfig sampleNow noChrono
      [("J/2025-06-07.md", "# d\n\n## Today\nnote to self\n- **08:00** q\n")]
      ⟨"- **12:00** y", 2, false, none⟩
      [("J/2025-06-07.md",
        "# d\n\n## Today\n- **08:00** q\n- **12:00** y\nnote to self\n"),
       ("J/2025-06-07.md", "# d\n\n## Today\nnote to self\n- **08:00** q\n")]
      (by decide) rfl rfl⟩

/-! ## C2: sortedness and tie stability of the persisted section -/

/-- A timestamp extracted by `parseMessageWithTime` has the zero-padded
`HH:mm` shape, provided the oracle (mirroring `Date.getHours`/`getMinutes`)
yields bounded fields. -/
theorem parseMessage_timestamp_shape {chrono : ChronoOracle} {now : JsDate}
    {input ts : String}
    (hchrono : ∀ s dt, chrono s = some dt → dt.hour ≤ 99 ∧ dt.minute ≤ 99)
    (h : (parseMessageWithTime chrono now input).timestamp = some ts) :
    timeShapeDigits ts = true := by
  unfold parseMessageWithTime at h
  cases hlast : lastIndexOfChar '@' input.data with
  | none =>
    rw [hlast] at h
    exact Option.noConfusion h
  | some i =>
    rw [hlast] at h
    simp only [] at h
    split at h
    · exact Option.noConfusion h
    · split at h
      · rename_i hv
        simp only [Option.some.injEq] at h
        subst h
        exact formatTime_shape hv
      · cases hchr : chrono (jsTrim ⟨input.data.drop (i + 1)⟩) with
        | none =>
          rw [hchr] at h
          exact Option.noConfusion h
        | some dt =>
          rw [hchr] at h
          split at h
          · rename_i pd hpd
            injection hpd with hpd2
            subst hpd2
            split at h
            · exact Option.noConfusion h
            · simp only [Option.some.injEq] at h
              subst h
              rcases hchrono _ _ hchr with ⟨h1, h2⟩
              exact timeShapeDigits_pad h1 h2
          · exact Option.noConfusion h

/-- Every timestamp the add operation can resolve has the zero-padded
`HH:mm` shape (override, @-reference, or current time), under the JS `Date`
field bounds. -/
theorem resolved_timestamp_shape {command : AddEntryCommand} {chrono : ChronoOracle}
    {now : JsDate} {ts : String}
    (hnowh : now.hour ≤ 99) (hnowm : now.minute ≤ 99)
    (hchrono : ∀ s dt, chrono s = some dt → dt.hour ≤ 99 ∧ dt.minute ≤ 99)
    (hts : (∃ t, command.customTime = some t ∧ validateTimeFormat t = true ∧
        ts = formatTime t) ∨
      (command.customTime = none ∧
        (parseMessageWithTime chrono now command.message).timestamp = some ts) ∨
      (command.customTime = none ∧
        (parseMessageWithTime chrono now command.message).timestamp = none ∧
        ts = getCurrentTime now)) :
    timeShapeDigits ts = true := by
  rcases hts with ⟨t, -, hv, rfl⟩ | ⟨-, hsome⟩ | ⟨-, -, rfl⟩
  · exact formatTime_shape hv
  · exact parseMessage_timestamp_shape hchrono hsome
  · exact timeShapeDigits_pad hnowh hnowm

/-- Mapping a function that fixes every element of a list is the identity. -/
theorem map_id_of_fix {l : List LogEntry} {f : LogEntry → LogEntry}
    (h : ∀ x ∈ l, f x = x) : l.map f = l := by
  induction l with
  | nil => rfl
  | cons a t ih =>
    rw [List.map_cons, h a (List.mem_cons_self a t),
      ih fun x hx => h x (List.mem_cons_of_mem a hx)]

/-- C2: after every successful add (message without line terminator, JS
`Date` field bounds on the clock and the oracle), the persisted section's
recognized entries are sorted non-decreasing by minutes-since-midnight,
and among the entries sharing the new entry's timestamp the new entry
comes last, after the existing ones in their original order. -/
theorem addLogEntryCore_c2_sorted_stable
    {command : AddEntryCommand} {config : LoggerConfig} {now : JsDate}
    {chrono : ChronoOracle} {fs : FS} {d : AddResultData} {fs' : FS}
    (hmsg : '\n' ∉ command.message.data)
    (hnowh : now.hour ≤ 99) (hnowm : now.minute ≤ 99)
    (hchrono : ∀ s dt, chrono s = some dt → dt.hour ≤ 99 ∧ dt.minute ≤ 99)
    (hrun : addLogEntryCore command config now chrono fs = (.ok d, fs')) :
    ∃ c',
      lookupFS fs' (config.journalDir ++ "/" ++ getTodayFilename now) = some c' ∧
      List.Pairwise entryLe (sectionEntriesInOrder c' config.todayHeader) ∧
      ∀ e', parseLogEntry d.entryAdded = some e' →
        (sectionEntriesInOrder c' config.todayHeader).filter
            (fun e => entryKey e == entryKey e') =
          (sectionEntriesInOrder (readOrTemplate fs
              (config.journalDir ++ "/" ++ getTodayFilename now) now)
            config.todayHeader).filter (fun e => entryKey e == entryKey e') ++ [e'] := by
  rcases addLogEntryCore_persisted_body hmsg hrun with
    ⟨ts, sec₀, hts, hfind, hadded, c', sec', hlook, hfind', hbody⟩
  have htss : timeShapeDigits ts = true :=
    resolved_timestamp_shape hnowh hnowm hchrono hts
  set nE : LogEntry := ⟨ts,
    (parseMessageWithTime chrono now command.message).message, d.entryAdded⟩ with hnE
  have hentries : sectionEntriesInOrder c' config.todayHeader =
      (mergedEntries sec₀ nE).filterMap (fun x => parseLogEntry x.raw) := by
    unfold sectionEntriesInOrder
    rw [hfind']
    simp only []
    rw [hbody, List.filterMap_append, List.filterMap_map]
    have hK : ((sectionBody sec₀).filter fun l => (parseLogEntry l).isNone).filterMap
        parseLogEntry = [] := by
      apply List.filterMap_eq_nil_iff.mpr
      intro l hl
      exact Option.isNone_iff_eq_none.1 (List.mem_filter.1 hl).2
    rw [hK, List.append_nil]
    rfl
  have hg : ∀ x ∈ mergedEntries sec₀ nE, ∀ y,
      parseLogEntry x.raw = some y → entryKey y = entryKey x := by
    intro x hx y hy
    rcases mem_mergedEntries hx with ⟨bl, hbl, hparse⟩ | hxe
    · rw [parseLogEntry_idem hparse] at hy
      cases hy
      rfl
    · subst hxe
      have hy' : parseLogEntry (renderEntryLine ts
          (parseMessageWithTime chrono now command.message).message) = some y := by
        rw [← hadded]
        rw [hnE] at hy
        exact hy
      rcases parseLogEntry_render_time htss _ hy' with ⟨htime, -⟩
      show entryKey y = entryKey nE
      unfold entryKey
      rw [htime, hnE]
  refine ⟨c', hlook, ?_, ?_⟩
  · rw [hentries]
    refine pairwise_key_filterMap hg ?_
    unfold mergedEntries
    exact sortEntries_sorted _
  intro e' he'
  have hpf : parseLogEntry nE.raw = some e' := by
    rw [hnE]
    exact he'
  have hmemnE : nE ∈ mergedEntries sec₀ nE := by
    unfold mergedEntries
    rw [mem_sortEntries]
    exact List.mem_append_right _ (List.mem_singleton_self _)
  have hke : entryKey e' = entryKey nE := hg nE hmemnE e' hpf
  have hgsome : ∀ x ∈ mergedEntries sec₀ nE,
      parseLogEntry x.raw = some (if x = nE then e' else x) := by
    intro x hx
    by_cases hxe : x = nE
    · rw [if_pos hxe, hxe]
      exact hpf
    · rw [if_neg hxe]
      rcases mem_mergedEntries hx with ⟨bl, hbl, hparse⟩ | h
      · exact parseLogEntry_idem hparse
      · exact absurd h hxe
  have hkeyh : ∀ x ∈ mergedEntries sec₀ nE,
      entryKey (if x = nE then e' else x) = entryKey x := by
    intro x hx
    by_cases hxe : x = nE
    · rw [if_pos hxe, hxe]
      exact hke
    · rw [if_neg hxe]
  have hEfix : ∀ x ∈ (sectionBody sec₀).filterMap parseLogEntry,
      (if x = nE then e' else x) = x := by
    intro x hx
    by_cases hxe : x = nE
    · rw [if_pos hxe]
      rcases List.mem_filterMap.1 hx with ⟨bl, hbl, hparse⟩
      have h1 : parseLogEntry x.raw = some x := parseLogEntry_idem hparse
      have h2 : parseLogEntry x.raw = some e' := by
        rw [hxe]
        exact hpf
      rw [h1] at h2
      exact (Option.some.inj h2).symm
    · exact if_neg hxe
  have hmf : (mergedEntries sec₀ nE).filter (fun e => entryKey e == entryKey e') =
      (((sectionBody sec₀).filterMap parseLogEntry).filter
        (fun e => entryKey e == entryKey e')) ++ [nE] := by
    unfold mergedEntries
    rw [filter_key_sortEntries, List.filter_append, filter_key_sortEntries]
    congr 1
    have hkeq : (entryKey nE == entryKey e') = true := by
      rw [hke]
      exact beq_self_eq_true _
    simp [List.filter_cons, hkeq]
  have hE0 : sectionEntriesInOrder (readOrTemplate fs
      (config.journalDir ++ "/" ++ getTodayFilename now) now) config.todayHeader =
      (sectionBody sec₀).filterMap parseLogEntry := by
    unfold sectionEntriesInOrder
    rw [hfind]
  rw [hentries, filterMap_eq_map_of hgsome, filter_key_map_of_key_eq hkeyh, hmf,
    List.map_append, map_id_of_fix fun x hx => hEfix x (List.mem_of_mem_filter hx), hE0]
  simp

/-- C2 witness: concrete instance — adding `z @10:15` to a note already
holding a `10:15` entry; the new entry sorts after the existing tie. -/
theorem addLogEntryCore_c2_sorted_stable_witness :
    '\n' ∉ (AddEntryCommand.mk "z @10:15" none).message.data ∧
    sampleNow.hour ≤ 99 ∧ sampleNow.minute ≤ 99 ∧
    (∀ s dt, noChrono s = some dt → dt.hour ≤ 99 ∧ dt.minute ≤ 99) ∧
    addLogEntryCore ⟨"z @10:15", none⟩ sampleConfig sampleNow noChrono
        [("J/2025-06-07.md", "# d\n\n## Today\n- **10:15** old\n- **11:00** later\n")] =
      (.ok ⟨"- **10:15** z", 3, false, none⟩,
        [("J/2025-06-07.md",
          "# d\n\n## Today\n- **10:15** old\n- **10:15** z\n- **11:00** later\n"),
         ("J/2025-06-07.md",
          "# d\n\n## Today\n- **10:15** old\n- **11:00** later\n")]) ∧
    (∃ c',
      lookupFS
        [("J/2025-06-07.md",
          "# d\n\n## Today\n- **10:15** old\n- **10:15** z\n- **11:00** later\n"),
         ("J/2025-06-07.md",
          "# d\n\n## Today\n- **10:15** old\n- **11:00** later\n")]
        (sampleConfig.journalDir ++ "/" ++ getTodayFilename sampleNow) = some c' ∧
      List.Pairwise entryLe (sectionEntriesInOrder c' sampleConfig.todayHeader) ∧
      ∀ e', parseLogEntry (AddResultData.mk "- **10:15** z" 3 false none).entryAdded
          = some e' →
        (sectionEntriesInOrder c' sampleConfig.todayHeader).filter
            (fun e => entryKey e == entryKey e') =
          (sectionEntriesInOrder (readOrTemplate
              [("J/2025-06-07.md",
                "# d\n\n## Today\n- **10:15** old\n- **11:00** later\n")]
              (sampleConfig.journalDir ++ "/" ++ getTodayFilename sampleNow) sampleNow)
            sampleConfig.todayHeader).filter (fun e => entryKey e == entryKey e')
          ++ [e']) :=
  ⟨by decide, by decide, by decide, fun _ _ h => Option.noConfusion h, rfl,
    @addLogEntryCore_c2_sorted_stable ⟨"z @10:15", none⟩ sampleConfig sampleNow noChrono
      [("J/2025-06-07.md", "# d\n\n## Today\n- **10:15** old\n- **11:00** later\n")]
      ⟨"- **10:15** z", 3, false, none⟩
      [("J/2025-06-07.md",
        "# d\n\n## Today\n- **10:15** old\n- **10:15** z\n- **11:00** later\n"),
       ("J/2025-06-07.md",
        "# d\n\n## Today\n- **10:15** old\n- **11:00** later\n")]
      (by decide) (by decide) (by decide) (fun _ _ h => Option.noConfusion h) rfl⟩

/-! ## C8: the recognized-line language of the entry regex -/

theorem mem_splits : ∀ (cs w m : List Char), (w, m) ∈ splits cs ↔ cs = w ++ m := by
  intro cs
  induction cs with
  | nil =>
    intro w m
    unfold splits
    rw [List.mem_singleton, Prod.mk.injEq]
    constructor
    · rintro ⟨rfl, rfl⟩
      rfl
    · intro h
      rcases List.append_eq_nil.1 h.symm with ⟨rfl, rfl⟩
      exact ⟨rfl, rfl⟩
  | cons c r ih =>
    intro w m
    unfold splits
    rw [List.mem_cons, List.mem_map]
    constructor
    · rintro (h | ⟨p, hp, he⟩)
      · rw [Prod.mk.injEq] at h
        rcases h with ⟨rfl, rfl⟩
        rfl
      · rw [Prod.mk.injEq] at he
        rcases he with ⟨h1, h2⟩
        rw [← h1, ← h2, List.cons_append, (ih p.1 p.2).1 hp]
    · intro h
      cases w with
      | nil =>
        left
        simp only [List.nil_append] at h
        rw [← h]
      | cons a w' =>
        right
        injection h with h1 h2
        refine ⟨(w', m), (ih w' m).2 h2, ?_⟩
        rw [Prod.mk.injEq]
        exact ⟨by rw [h1], rfl⟩

theorem any_splits {cs : List Char} {f : List Char × List Char → Bool} :
    (splits cs).any f = true ↔ ∃ w m, cs = w ++ m ∧ f (w, m) = true := by
  rw [List.any_eq_true]
  constructor
  · rintro ⟨p, hp, hf⟩
    exact ⟨p.1, p.2, (mem_splits cs p.1 p.2).1 hp, hf⟩
  · rintro ⟨w, m, he, hf⟩
    exact ⟨(w, m), (mem_splits cs w m).2 he, hf⟩

theorem mem_boldOptions {r r' : List Char} :
    r' ∈ boldOptions r ↔ r' = r ∨ r = '*' :: '*' :: r' := by
  unfold boldOptions
  rw [List.mem_append, List.mem_singleton]
  constructor
  · rintro (h | h)
    · exact Or.inl h
    · right
      split at h
      · rename_i t
        rw [List.mem_singleton] at h
        subst h
        rfl
      · exact absurd h (List.not_mem_nil r')
  · rintro (rfl | h)
    · exact Or.inl rfl
    · right
      rw [h]
      exact List.mem_singleton_self r'

theorem stripBold_mem_boldOptions (r : List Char) : stripBold r ∈ boldOptions r := by
  unfold stripBold
  split
  · exact mem_boldOptions.2 (Or.inr rfl)
  · exact mem_boldOptions.2 (Or.inl rfl)

theorem stripBold_eq_self {r : List Char} (h : ∀ c, r.head? = some c → c ≠ '*') :
    stripBold r = r := by
  unfold stripBold
  split
  · rename_i t
    exact absurd rfl (h '*' rfl)
  · rfl

theorem head_dropWhile_not {p : Char → Bool} :
    ∀ {l : List Char} {c : Char}, (l.dropWhile p).head? = some c → p c = false
  | [], c, h => by simp at h
  | a :: t, c, h => by
    cases hpa : p a
    · simp only [List.dropWhile_cons, hpa, Bool.false_eq_true, if_false,
        List.head?_cons, Option.some.injEq] at h
      rw [← h]
      exact hpa
    · simp only [List.dropWhile_cons, hpa, if_true] at h
      exact head_dropWhile_not h

theorem timeTokSplits_head {r₂ r₃ : List Char} (h : r₃ ∈ timeTokSplits r₂) :
    ∃ c t, r₂ = c :: t ∧ isDigitChar c = true := by
  unfold timeTokSplits at h
  rw [List.mem_append] at h
  rcases h with h | h
  · split at h
    · rename_i d₁ d₂ m₁ m₂ r
      split at h
      · rename_i hg
        simp only [Bool.and_eq_true] at hg
        exact ⟨d₁, _, rfl, hg.1.1.1⟩
      · exact absurd h (List.not_mem_nil _)
    · exact absurd h (List.not_mem_nil _)
  · split at h
    · rename_i d₁ m₁ m₂ r
      split at h
      · rename_i hg
        simp only [Bool.and_eq_true] at hg
        exact ⟨d₁, _, rfl, hg.1.1⟩
      · exact absurd h (List.not_mem_nil _)
    · exact absurd h (List.not_mem_nil _)

theorem timeTokSplits_sound {r₂ r₃ : List Char} (h : r₃ ∈ timeTokSplits r₂) :
    ∃ t, matchTimeTok r₂ = some (t, r₃) := by
  unfold timeTokSplits at h
  rw [List.mem_append] at h
  rcases h with h | h
  · split at h
    · rename_i d₁ d₂ m₁ m₂ r
      split at h
      · rename_i hg
        rw [List.mem_singleton] at h
        subst h
        refine ⟨[d₁, d₂, ':', m₁, m₂], ?_⟩
        have h2 : matchTime2 (d₁ :: d₂ :: ':' :: m₁ :: m₂ :: r₃) =
            some ([d₁, d₂, ':', m₁, m₂], r₃) := by
          show (if (isDigitChar d₁ && isDigitChar d₂ && isDigitChar m₁ &&
              isDigitChar m₂) = true then
            some ([d₁, d₂, ':', m₁, m₂], r₃) else none) = some ([d₁, d₂, ':', m₁, m₂], r₃)
          rw [if_pos hg]
        unfold matchTimeTok
        rw [h2]
      · exact absurd h (List.not_mem_nil _)
    · exact absurd h (List.not_mem_nil _)
  · split at h
    · rename_i d₁ m₁ m₂ r
      split at h
      · rename_i hg
        rw [List.mem_singleton] at h
        subst h
        refine ⟨[d₁, ':', m₁, m₂], ?_⟩
        have hm₁ : isDigitChar m₁ = true := by
          simp only [Bool.and_eq_true] at hg
          exact hg.1.2
        have h2 : matchTime2 (d₁ :: ':' :: m₁ :: m₂ :: r₃) = none := by
          unfold matchTime2
          split
          · rename_i a b c' d' rest heq
            injection heq with e1 heq
            injection heq with e2 heq
            injection heq with e3 heq
            exact absurd e3 (ne_colon_of_isDigitChar hm₁)
          · rfl
        have h1 : matchTime1 (d₁ :: ':' :: m₁ :: m₂ :: r₃) =
            some ([d₁, ':', m₁, m₂], r₃) := by
          show (if (isDigitChar d₁ && isDigitChar m₁ && isDigitChar m₂) = true then
            some ([d₁, ':', m₁, m₂], r₃) else none) = some ([d₁, ':', m₁, m₂], r₃)
          rw [if_pos hg]
        unfold matchTimeTok
        rw [h2]
        exact h1
      · exact absurd h (List.not_mem_nil _)
    · exact absurd h (List.not_mem_nil _)

theorem matchTimeTok_mem {r₂ t r₃ : List Char}
    (h : matchTimeTok r₂ = some (t, r₃)) : r₃ ∈ timeTokSplits r₂ := by
  unfold matchTimeTok at h
  cases hmt2 : matchTime2 r₂ with
  | some x =>
    rw [hmt2] at h
    simp only [Option.some.injEq] at h
    subst h
    unfold matchTime2 at hmt2
    split at hmt2
    · rename_i d₁ d₂ m₁ m₂ r
      split at hmt2
      · rename_i hg
        simp only [Option.some.injEq, Prod.mk.injEq] at hmt2
        rcases hmt2 with ⟨-, rfl⟩
        unfold timeTokSplits
        rw [List.mem_append]
        left
        show r ∈ (if (isDigitChar d₁ && isDigitChar d₂ && isDigitChar m₁ &&
            isDigitChar m₂) = true then [r] else [])
        rw [if_pos hg]
        exact List.mem_singleton_self _
      · exact Option.noConfusion hmt2
    · exact Option.noConfusion hmt2
  | none =>
    rw [hmt2] at h
    simp only [] at h
    unfold matchTime1 at h
    split at h
    · rename_i d₁ m₁ m₂ r
      split at h
      · rename_i hg
        simp only [Option.some.injEq, Prod.mk.injEq] at h
        rcases h with ⟨-, rfl⟩
        unfold timeTokSplits
        rw [List.mem_append]
        right
        show r ∈ (if (isDigitChar d₁ && isDigitChar m₁ && isDigitChar m₂) = true
          then [r] else [])
        rw [if_pos hg]
        exact List.mem_singleton_self _
      · exact Option.noConfusion h
    · exact Option.noConfusion h

/-- `matchTail` succeeds exactly on the lists some decomposition of which
matches `\s+(.+)$`. -/
theorem matchTail_isSome_iff (r : List Char) :
    (matchTail r).isSome = true ↔ tailShape r = true := by
  constructor
  · intro h
    unfold matchTail at h
    simp only [] at h
    unfold tailShape
    rw [any_splits]
    split at h
    · simp at h
    · rename_i hwne
      split at h
      · rename_i hme
        split at h
        · rename_i c hlast
          split at h
          · rename_i hc
            simp only [Bool.and_eq_true, decide_eq_true_eq] at hc
            have hwnil : r.takeWhile jsWs ≠ [] := by
              intro hn
              rw [hn] at hwne
              exact hwne rfl
            have hr : r = r.takeWhile jsWs := by
              conv_lhs => rw [← List.takeWhile_append_dropWhile jsWs r]
              rw [List.isEmpty_iff.1 hme, List.append_nil]
            have hw : r.takeWhile jsWs =
                (r.takeWhile jsWs).dropLast ++ [(r.takeWhile jsWs).getLast hwnil] := by
              rw [List.dropLast_append_getLast]
            have hcl : (r.takeWhile jsWs).getLast hwnil = c := by
              have := List.getLast?_eq_getLast (r.takeWhile jsWs) hwnil
              rw [this] at hlast
              exact Option.some.inj hlast
            refine ⟨(r.takeWhile jsWs).dropLast, [c], ?_, ?_⟩
            · rw [← hcl, ← hw]
              exact hr
            · simp only [Bool.and_eq_true, Bool.not_eq_true']
              refine ⟨⟨⟨?_, ?_⟩, ?_⟩, ?_⟩
              · rw [List.isEmpty_eq_false_iff_exists_mem]
                have hlen := hc.1
                cases hdl : (r.takeWhile jsWs).dropLast with
                | nil =>
                  have := congrArg List.length hdl
                  rw [List.length_dropLast] at this
                  simp at this
                  omega
                | cons x xs => exact ⟨x, List.mem_cons_self x xs⟩
              · rw [List.all_eq_true]
                intro a ha
                exact List.mem_takeWhile_imp
                  ((List.dropLast_sublist (r.takeWhile jsWs)).subset ha)
              · simp
              · simp [hc.2]
          · simp at h
        · simp at h
      · rename_i hmne
        split at h
        · rename_i hall
          refine ⟨r.takeWhile jsWs, r.dropWhile jsWs,
            (List.takeWhile_append_dropWhile jsWs r).symm, ?_⟩
          simp only [Bool.and_eq_true, Bool.not_eq_true']
          refine ⟨⟨⟨?_, ?_⟩, ?_⟩, hall⟩
          · cases hbe : (r.takeWhile jsWs).isEmpty
            · rfl
            · exact absurd hbe hwne
          · rw [List.all_eq_true]
            exact fun a ha => List.mem_takeWhile_imp ha
          · cases hbe : (r.dropWhile jsWs).isEmpty
            · rfl
            · exact absurd hbe hmne
        · simp at h
  · intro h
    unfold tailShape at h
    rw [any_splits] at h
    obtain ⟨w₂, m, rfl, hf⟩ := h
    simp only [Bool.and_eq_true, Bool.not_eq_true'] at hf
    obtain ⟨⟨⟨hw₂ne, hw₂ws⟩, hmne⟩, hmdot⟩ := hf
    have hw₂ws' : ∀ c ∈ w₂, jsWs c = true := List.all_eq_true.1 hw₂ws
    have hmdot' : ∀ c ∈ m, jsDot c = true := List.all_eq_true.1 hmdot
    have hw₂nil : w₂ ≠ [] := by
      intro hn
      rw [hn] at hw₂ne
      simp at hw₂ne
    have hmnil : m ≠ [] := by
      intro hn
      rw [hn] at hmne
      simp at hmne
    have htne : ((w₂ ++ m).takeWhile jsWs).isEmpty = false := by
      cases w₂ with
      | nil => exact absurd rfl hw₂nil
      | cons a t =>
        rw [List.cons_append, List.takeWhile_cons,
          hw₂ws' a (List.mem_cons_self a t)]
        rfl
    cases hdm : m.dropWhile jsWs with
    | nil =>
      have hmws : ∀ c ∈ m, jsWs c = true := List.dropWhile_eq_nil_iff.1 hdm
      have hrws : ∀ c ∈ w₂ ++ m, jsWs c = true := by
        intro c hc
        rcases List.mem_append.1 hc with hc | hc
        · exact hw₂ws' c hc
        · exact hmws c hc
      have htw : (w₂ ++ m).takeWhile jsWs = w₂ ++ m := takeWhile_eq_self_of hrws
      have hdw : (w₂ ++ m).dropWhile jsWs = [] := dropWhile_eq_nil_of hrws
      rcases (⟨m.getLast hmnil, List.getLast?_eq_getLast m hmnil⟩ :
        ∃ a, m.getLast? = some a) with ⟨c, hc⟩
      have hlast : (w₂ ++ m).getLast? = some c := by
        rw [List.getLast?_append_of_ne_nil w₂ hmnil]
        exact hc
      unfold matchTail
      simp only []
      rw [htw, hdw, hlast]
      rw [if_neg (fun hemp =>
        hw₂nil (List.append_eq_nil.1 (List.isEmpty_iff.1 hemp)).1),
        if_pos List.isEmpty_nil]
      have hguard : ((w₂ ++ m).length ≥ 2 && jsDot c) = true := by
        simp only [Bool.and_eq_true, decide_eq_true_eq]
        constructor
        · rw [List.length_append]
          have h1 : 1 ≤ w₂.length := List.length_pos.2 hw₂nil
          have h2 : 1 ≤ m.length := List.length_pos.2 hmnil
          omega
        · exact hmdot' c (List.mem_of_mem_getLast? hc)
      show (if (decide ((w₂ ++ m).length ≥ 2) && jsDot c) = true then some [c]
        else none).isSome = true
      rw [if_pos hguard]
      rfl
    | cons c0 mt =>
      have hdall : (w₂ ++ m).dropWhile jsWs = c0 :: mt := by
        rw [dropWhile_append_all hw₂ws', hdm]
      have hdot0 : ((c0 :: mt).all jsDot) = true := by
        rw [List.all_eq_true]
        intro c hc
        rw [← hdm] at hc
        exact hmdot' c ((List.dropWhile_sublist jsWs).subset hc)
      unfold matchTail
      simp only []
      rw [hdall]
      rw [if_neg (by rw [htne]; exact Bool.false_ne_true),
        if_neg (by simp), if_pos hdot0]
      rfl

theorem parseLogEntry_isSome_eq (l : String) :
    (parseLogEntry l).isSome = (parseEntryChars l.data).isSome := by
  unfold parseLogEntry
  cases h : parseEntryChars l.data with
  | none => rfl
  | some p =>
    obtain ⟨t, m⟩ := p
    rfl

theorem parseEntryChars_dash (rest : List Char) :
    parseEntryChars ('-' :: rest) =
      (if (rest.takeWhile jsWs).isEmpty then none
       else
         match matchTimeTok (stripBold (rest.dropWhile jsWs)) with
         | none => none
         | some (t, r₃) => (matchTail (stripBold r₃)).map fun m => (t, m)) := rfl

theorem entryShapeAmended_dash (rest : List Char) :
    entryShapeAmended ('-' :: rest) =
      (splits rest).any fun p =>
        !p.1.isEmpty && p.1.all jsWs &&
        ((boldOptions p.2).any fun r₂ =>
          (timeTokSplits r₂).any fun r₃ =>
            (boldOptions r₃).any fun r₄ => tailShape r₄) := rfl

theorem tailShape_head_ws {r₄ : List Char} {ch : Char} (ht : tailShape r₄ = true)
    (hch : r₄.head? = some ch) : jsWs ch = true := by
  unfold tailShape at ht
  rw [any_splits] at ht
  obtain ⟨w₂, m, rfl, hf⟩ := ht
  simp only [Bool.and_eq_true, Bool.not_eq_true'] at hf
  obtain ⟨⟨⟨hw₂ne, hw₂ws⟩, -⟩, -⟩ := hf
  cases w₂ with
  | nil => simp at hw₂ne
  | cons a t =>
    rw [List.cons_append, List.head?_cons, Option.some.injEq] at hch
    rw [← hch]
    exact List.all_eq_true.1 hw₂ws a (List.mem_cons_self a t)

/-- The deterministic matcher accepts exactly the declarative language of
the regex. -/
theorem parseEntryChars_isSome_shape (cs : List Char) :
    (parseEntryChars cs).isSome = entryShapeAmended cs := by
  cases cs with
  | nil => rfl
  | cons a rest =>
    by_cases ha : a = '-'
    · subst ha
      rw [parseEntryChars_dash, entryShapeAmended_dash, Bool.eq_iff_iff]
      constructor
      · intro h
        split at h
        · simp at h
        · rename_i hwe
          cases hmt : matchTimeTok (stripBold (rest.dropWhile jsWs)) with
          | none =>
            rw [hmt] at h
            simp at h
          | some p =>
            obtain ⟨t, r₃⟩ := p
            rw [hmt] at h
            simp only [Option.isSome_map'] at h
            rw [any_splits]
            refine ⟨rest.takeWhile jsWs, rest.dropWhile jsWs,
              (List.takeWhile_append_dropWhile _ _).symm, ?_⟩
            simp only [Bool.and_eq_true, Bool.not_eq_true']
            refine ⟨⟨?_, ?_⟩, ?_⟩
            · cases hbe : (rest.takeWhile jsWs).isEmpty
              · rfl
              · exact absurd hbe hwe
            · rw [List.all_eq_true]
              exact fun c hc => List.mem_takeWhile_imp hc
            · rw [List.any_eq_true]
              refine ⟨stripBold (rest.dropWhile jsWs), stripBold_mem_boldOptions _, ?_⟩
              rw [List.any_eq_true]
              refine ⟨r₃, matchTimeTok_mem hmt, ?_⟩
              rw [List.any_eq_true]
              refine ⟨stripBold r₃, stripBold_mem_boldOptions _, ?_⟩
              exact (matchTail_isSome_iff _).1 h
      · intro h
        rw [any_splits] at h
        obtain ⟨w, r₁, hsplit, hf⟩ := h
        simp only [Bool.and_eq_true, Bool.not_eq_true'] at hf
        obtain ⟨⟨hwne, hwall⟩, hany⟩ := hf
        rw [List.any_eq_true] at hany
        obtain ⟨r₂, hr₂, hany⟩ := hany
        rw [List.any_eq_true] at hany
        obtain ⟨r₃, hr₃, hany⟩ := hany
        rw [List.any_eq_true] at hany
        obtain ⟨r₄, hr₄, htail⟩ := hany
        obtain ⟨c, tl, hr₂eq, hcdig⟩ := timeTokSplits_head hr₃
        have hr₁head : ∀ ch, r₁.head? = some ch → jsWs ch = false := by
          intro ch hch
          rcases mem_boldOptions.1 hr₂ with rfl | heq
          · rw [hr₂eq, List.head?_cons, Option.some.injEq] at hch
            rw [← hch]
            exact not_jsWs_of_isDigitChar hcdig
          · rw [heq, List.head?_cons, Option.some.injEq] at hch
            rw [← hch]
            decide
        subst hsplit
        have htw : (w ++ r₁).takeWhile jsWs = w :=
          takeWhile_append_of (List.all_eq_true.1 hwall) hr₁head
        have hdw : (w ++ r₁).dropWhile jsWs = r₁ :=
          dropWhile_append_of (List.all_eq_true.1 hwall) hr₁head
        have hsb1 : stripBold r₁ = r₂ := by
          rcases mem_boldOptions.1 hr₂ with rfl | heq
          · apply stripBold_eq_self
            intro ch hch
            rw [hr₂eq, List.head?_cons, Option.some.injEq] at hch
            rw [← hch]
            exact ne_star_of_isDigitChar hcdig
          · rw [heq]
            rfl
        obtain ⟨t, hmt⟩ := timeTokSplits_sound hr₃
        have hsb2 : stripBold r₃ = r₄ := by
          rcases mem_boldOptions.1 hr₄ with rfl | heq
          · apply stripBold_eq_self
            intro ch hch
            have hws := tailShape_head_ws htail hch
            intro hstar
            rw [hstar] at hws
            exact absurd hws (by decide)
          · rw [heq]
            rfl
        rw [htw, hdw, if_neg (by rw [hwne]; exact Bool.false_ne_true), hsb1, hmt]
        show ((matchTail (stripBold r₃)).map fun m => (t, m)).isSome = true
        rw [hsb2, Option.isSome_map']
        exact (matchTail_isSome_iff r₄).2 htail
    · have h1 : parseEntryChars (a :: rest) = none := by
        unfold parseEntryChars
        split
        · rename_i rest' heq
          injection heq with e1 _
          exact absurd e1 ha
        · rfl
      have h2 : entryShapeAmended (a :: rest) = false := by
        unfold entryShapeAmended
        split
        · rename_i rest' heq
          injection heq with e1 _
          exact absurd e1 ha
        · rfl
      rw [h1, h2]
      rfl

/-- C8 (counterexample): the claim's shape and the parser disagree in both
directions — `- **14:30**` has the claimed shape (bullet, bold-wrapped
strict time, empty remainder) but is not recognized, and `- 99:99 x` is
recognized although `99:99` is not a strict time (hours 0–23, minutes
0–59). -/
theorem parseLogEntry_c8_counterexample :
    entryShapeClaimed "- **14:30**".data = true ∧
    (parseLogEntry "- **14:30**").isSome = false ∧
    entryShapeClaimed "- 99:99 x".data = false ∧
    (parseLogEntry "- 99:99 x").isSome = true := by decide

/-- C8 (amended): the line parser recognizes a line if and only if it
decomposes as a bullet marker, a whitespace run, an optionally
`**`-prefixed `\d{1,2}:\d{2}` token with unconstrained digits, an optional
`**`, a whitespace run, and a NONEMPTY message free of line terminators —
each `**` is independently optional (not a matched pair), hours/minutes
are not range-checked, and an empty remainder is not recognized. -/
theorem parseLogEntry_c8_amended (l : String) :
    (parseLogEntry l).isSome = entryShapeAmended l.data := by
  rw [parseLogEntry_isSome_eq, parseEntryChars_isSome_shape]
